import Mathlib

/-!
Verification of the starlette-sessions session layer.

The development shallowly embeds:
* the base64url codec and a JSON serializer/parser pair modelling the
  Python standard-library collaborators used by the cookie pipeline
  (`base64.urlsafe_b64encode/urlsafe_b64decode`, `json.dumps/json.loads`
  with their default settings, restricted to non-float JSON values);
* the cookie content pipeline of `cookie/backend.py`
  (`save_content` / `load_content`) with pluggable sign/unsign hooks;
* a timestamped signer modelled from the spec (the concrete signer is the
  third-party `itsdangerous.TimestampSigner`, outside this repository);
* the bound-session state machine of `base.py` (`BaseBackendSession` /
  `StandardBackendSession`), with backend calls recorded explicitly;
* the self-contained cookie session state of `cookie/base.py`
  (`StandardCookieBackendSession`).

Bytes are `Nat` with explicit `< 256` bounds where they matter.
Python exceptions that the code catches are modelled as `Option`/explicit
failure values; a raised exception that escapes is modelled as `none` at
an outer `Option` layer where relevant.
-/

/-! ## Decimal digits (used by the JSON number format and timestamps) -/

/-- The ten decimal digit characters. -/
def decAlphabet : List Char := "0123456789".toList

/-- Digit character for a value below ten. -/
def digitChar (d : Nat) : Char := decAlphabet.getD d '0'

/-- Fuel-driven decimal printer accumulator (structural, so that the kernel
can evaluate it). -/
def natToDecAux : Nat → Nat → List Char → List Char
  | 0, _, acc => acc
  | f + 1, n, acc =>
    if n < 10 then digitChar n :: acc
    else natToDecAux f (n / 10) (digitChar (n % 10) :: acc)

/-- Decimal digit string of a natural number, most significant digit first;
models Python `repr` of a non-negative int. -/
def natToDec (n : Nat) : List Char := natToDecAux (n + 1) n []

/-- Decimal digit string of an integer; models Python `repr` of an int. -/
def intToDec (n : Int) : List Char :=
  if n < 0 then '-' :: natToDec n.natAbs else natToDec n.toNat

/-- Numeric value of a decimal digit string (most significant first). -/
def digitsVal (ds : List Char) : Nat :=
  ds.foldl (fun a c => a * 10 + (c.toNat - 48)) 0

/-! ## base64url codec, modelling Python base64.urlsafe_b64encode/decode -/

/-- The base64url alphabet. -/
def b64Alphabet : List Char :=
  "ABCDEFGHIJKLMNOPQRSTUVWXYZabcdefghijklmnopqrstuvwxyz0123456789-_".toList

/-- Character for a sextet value below 64. -/
def b64char (n : Nat) : Char := b64Alphabet.getD n 'A'

/-- Sextet value of a base64url character, if it is in the alphabet. -/
def b64val (c : Char) : Option Nat := b64Alphabet.findIdx? (· = c)

/-- base64url encoding of a byte list, including padding, as in
`base64.urlsafe_b64encode`. -/
def urlsafe_b64encode : List Nat → List Char
  | [] => []
  | [a] => [b64char (a / 4), b64char (a % 4 * 16), '=', '=']
  | [a, b] => [b64char (a / 4), b64char (a % 4 * 16 + b / 16), b64char (b % 16 * 4), '=']
  | a :: b :: c :: rest =>
    b64char (a / 4) :: b64char (a % 4 * 16 + b / 16) ::
      b64char (b % 16 * 4 + c / 64) :: b64char (c % 64) :: urlsafe_b64encode rest

/-- base64url decoding of a character list, as in
`base64.urlsafe_b64decode`; `none` models a raised `binascii.Error`
(a `ValueError`). -/
def urlsafe_b64decode : List Char → Option (List Nat)
  | [] => some []
  | c1 :: c2 :: c3 :: c4 :: rest =>
    match b64val c1, b64val c2 with
    | some v1, some v2 =>
      if c3 = '=' then
        if c4 = '=' ∧ rest = [] then some [v1 * 4 + v2 / 16] else none
      else
        match b64val c3 with
        | some v3 =>
          if c4 = '=' then
            if rest = [] then some [v1 * 4 + v2 / 16, v2 % 16 * 16 + v3 / 4] else none
          else
            match b64val c4 with
            | some v4 =>
              (urlsafe_b64decode rest).map
                (fun bs => (v1 * 4 + v2 / 16) :: (v2 % 16 * 16 + v3 / 4) :: (v3 % 4 * 64 + v4) :: bs)
            | none => none
        | none => none
    | _, _ => none
  | _ => none

/-! ## JSON values, printer and parser

Models Python `json.dumps` (default settings: `ensure_ascii=True`,
separators `", "` and `": "`) and `json.loads`, restricted to the
non-float JSON values (null, booleans, ints, strings, arrays, objects).
Strings are lists of characters; objects are association lists in
insertion order, matching dict order round-tripping in CPython. -/

inductive JValue where
  | null
  | bool (b : Bool)
  | int (n : Int)
  | str (s : List Char)
  | arr (xs : List JValue)
  | obj (kvs : List (List Char × JValue))

/-- The lowercase hexadecimal digit characters. -/
def hexAlphabet : List Char := "0123456789abcdef".toList

/-- The uppercase hexadecimal digit characters. -/
def hexAlphabetUpper : List Char := "0123456789ABCDEF".toList

/-- Hex digit character for a value below 16 (lowercase, as emitted by
Python `json.dumps`). -/
def hexDigit (d : Nat) : Char := hexAlphabet.getD d '0'

/-- Value of a hex digit character, accepting both cases as `json.loads`
does. -/
def hexVal (c : Char) : Option Nat :=
  match hexAlphabet.findIdx? (· = c) with
  | some i => some i
  | none => hexAlphabetUpper.findIdx? (· = c)

/-- Four-hex-digit rendering of a value below 65536, as in a JSON
\uXXXX escape. -/
def toHex4 (n : Nat) : List Char :=
  [hexDigit (n / 4096 % 16), hexDigit (n / 256 % 16), hexDigit (n / 16 % 16), hexDigit (n % 16)]

/-- JSON escape of one character, following Python `json.dumps` with
`ensure_ascii=True`: the two-character escapes of its `ESCAPE_DCT`,
\uXXXX for other characters outside printable ASCII, and surrogate
pairs for characters above the basic multilingual plane. -/
def escapeChar (c : Char) : List Char :=
  if c = '"' then ['\\', '"']
  else if c = '\\' then ['\\', '\\']
  else if c = '\x08' then ['\\', 'b']
  else if c = '\x0c' then ['\\', 'f']
  else if c = '\n' then ['\\', 'n']
  else if c = '\r' then ['\\', 'r']
  else if c = '\t' then ['\\', 't']
  else if c.toNat < 32 ∨ 126 < c.toNat then
    if c.toNat < 65536 then '\\' :: 'u' :: toHex4 c.toNat
    else
      '\\' :: 'u' :: toHex4 (55296 + (c.toNat - 65536) / 1024) ++
        '\\' :: 'u' :: toHex4 (56320 + (c.toNat - 65536) % 1024)
  else [c]

/-- JSON escape of a string body. -/
def escapeStr (s : List Char) : List Char := (s.map escapeChar).flatten

mutual
/-- Serialize a JSON value to text, as Python `json.dumps` with its
default separators and `ensure_ascii=True`. -/
def dumpJ : JValue → List Char
  | .int n => intToDec n
  | .bool true => ['t', 'r', 'u', 'e']
  | .bool false => ['f', 'a', 'l', 's', 'e']
  | .null => ['n', 'u', 'l', 'l']
  | .str s => '"' :: escapeStr s ++ ['"']
  | .arr [] => ['[', ']']
  | .arr (v :: vs) => '[' :: (dumpJ v ++ dumpArrTail vs)
  | .obj [] => ['{', '}']
  | .obj (kv :: kvs) => '{' :: (dumpEntry kv ++ dumpObjTail kvs)

/-- Serialize one object entry, `"key": value`. -/
def dumpEntry : List Char × JValue → List Char
  | (k, v) => '"' :: escapeStr k ++ ['"', ':', ' '] ++ dumpJ v

/-- Serialize the rest of an array after its first element, closing it. -/
def dumpArrTail : List JValue → List Char
  | [] => [']']
  | v :: vs => ',' :: ' ' :: (dumpJ v ++ dumpArrTail vs)

/-- Serialize the rest of an object after its first entry, closing it. -/
def dumpObjTail : List (List Char × JValue) → List Char
  | [] => ['}']
  | kv :: kvs => ',' :: ' ' :: (dumpEntry kv ++ dumpObjTail kvs)
end

/-- JSON whitespace, as skipped by `json.loads`. -/
def isJWs (c : Char) : Bool := c = ' ' ∨ c = '\t' ∨ c = '\n' ∨ c = '\r'

/-- Drop leading JSON whitespace. -/
def skipWs : List Char → List Char
  | [] => []
  | c :: r => if isJWs c then skipWs r else c :: r

/-- Read four hex digits, returning their value. -/
def readHex4 : List Char → Option (Nat × List Char)
  | h1 :: h2 :: h3 :: h4 :: r3 =>
    match hexVal h1, hexVal h2, hexVal h3, hexVal h4 with
    | some a, some b, some c, some d => some (a * 4096 + b * 256 + c * 16 + d, r3)
    | _, _, _, _ => none
  | _ => none

/-- Read a low-surrogate escape \uXXXX with value in the low range. -/
def readLowSurrogate (cs : List Char) : Option (Nat × List Char) :=
  match cs with
  | e1 :: e2 :: r3 =>
    if e1 = '\\' ∧ e2 = 'u' then
      match readHex4 r3 with
      | some (m, r4) => if 56320 ≤ m ∧ m ≤ 57343 then some (m, r4) else none
      | none => none
    else none
  | _ => none

/-- Decode one JSON string escape after the backslash: the two-character
escapes, \uXXXX, and surrogate pairs, as `json.loads` does.  A lone
surrogate escape is rejected (Lean characters exclude surrogates; no
claim exercises this corner). -/
def readEscape : List Char → Option (Char × List Char)
  | [] => none
  | e :: r2 =>
    if e = 'u' then
      match readHex4 r2 with
      | none => none
      | some (n, r3) =>
        if 55296 ≤ n ∧ n ≤ 56319 then
          match readLowSurrogate r3 with
          | none => none
          | some (m, r4) => some (Char.ofNat (65536 + (n - 55296) * 1024 + (m - 56320)), r4)
        else if 56320 ≤ n ∧ n ≤ 57343 then none
        else some (Char.ofNat n, r3)
    else if e = '"' then some ('"', r2)
    else if e = '\\' then some ('\\', r2)
    else if e = '/' then some ('/', r2)
    else if e = 'b' then some ('\x08', r2)
    else if e = 'f' then some ('\x0c', r2)
    else if e = 'n' then some ('\n', r2)
    else if e = 'r' then some ('\r', r2)
    else if e = 't' then some ('\t', r2)
    else none

/-- Fuel-driven parse of a JSON string body after the opening quote,
returning the unescaped string and the input after the closing quote;
`none` models a raised `JSONDecodeError` (a `ValueError`). -/
def parseStrF : Nat → List Char → Option (List Char × List Char)
  | 0, _ => none
  | _ + 1, [] => none
  | f + 1, c :: r =>
    if c = '"' then some ([], r)
    else if c = '\\' then
      match readEscape r with
      | none => none
      | some (u, r3) => (parseStrF f r3).map (fun p => (u :: p.1, p.2))
    else (parseStrF f r).map (fun p => (c :: p.1, p.2))

/-- Parse a string body; each produced character consumes at least one
input character, so input length plus one is always enough fuel. -/
def parseStr (cs : List Char) : Option (List Char × List Char) :=
  parseStrF (cs.length + 1) cs

/-- Parse an unsigned JSON integer: a nonempty run of digits.  Fractions
and exponents are outside the modelled value domain (floats excluded). -/
def parseNatNum (cs : List Char) : Option (JValue × List Char) :=
  let ds := cs.takeWhile Char.isDigit
  if ds.isEmpty then none
  else some (.int (digitsVal ds), cs.dropWhile Char.isDigit)

/-- Parse a JSON integer with optional leading minus sign. -/
def parseNum : List Char → Option (JValue × List Char)
  | [] => none
  | c :: r =>
    if c = '-' then
      (parseNatNum r).map (fun p => (match p.1 with | .int n => .int (-n) | v => v, p.2))
    else parseNatNum (c :: r)

mutual
/-- Fuel-driven JSON value parser, modelling `json.loads` on the
non-float domain: skips leading whitespace, dispatches on the first
character.  `none` models a raised `JSONDecodeError`. -/
def parseJ : Nat → List Char → Option (JValue × List Char)
  | 0, _ => none
  | f + 1, cs =>
    match skipWs cs with
    | [] => none
    | c :: r =>
      if c = 'n' then
        match r with
        | 'u' :: 'l' :: 'l' :: r2 => some (.null, r2)
        | _ => none
      else if c = 't' then
        match r with
        | 'r' :: 'u' :: 'e' :: r2 => some (.bool true, r2)
        | _ => none
      else if c = 'f' then
        match r with
        | 'a' :: 'l' :: 's' :: 'e' :: r2 => some (.bool false, r2)
        | _ => none
      else if c = '"' then
        (parseStr r).map (fun p => (.str p.1, p.2))
      else if c = '[' then
        match skipWs r with
        | [] => none
        | c2 :: r2 =>
          if c2 = ']' then some (.arr [], r2)
          else
            match parseJ f (c2 :: r2) with
            | none => none
            | some (v, r3) =>
              match parseArrTail f r3 with
              | none => none
              | some (vs, r4) => some (.arr (v :: vs), r4)
      else if c = '{' then
        match skipWs r with
        | [] => none
        | c2 :: r2 =>
          if c2 = '}' then some (.obj [], r2)
          else if c2 = '"' then
            match parseStr r2 with
            | none => none
            | some (k, r3) =>
              match skipWs r3 with
              | [] => none
              | c3 :: r4 =>
                if c3 = ':' then
                  match parseJ f r4 with
                  | none => none
                  | some (v, r5) =>
                    match parseObjTail f r5 with
                    | none => none
                    | some (kvs, r6) => some (.obj ((k, v) :: kvs), r6)
                else none
          else none
      else if c = '-' ∨ c.isDigit then parseNum (c :: r)
      else none

/-- Parse the rest of an array after one element: a close bracket or a
comma followed by an element. -/
def parseArrTail : Nat → List Char → Option (List JValue × List Char)
  | 0, _ => none
  | f + 1, cs =>
    match skipWs cs with
    | [] => none
    | c :: r =>
      if c = ']' then some ([], r)
      else if c = ',' then
        match parseJ f r with
        | none => none
        | some (v, r2) =>
          match parseArrTail f r2 with
          | none => none
          | some (vs, r3) => some (v :: vs, r3)
      else none

/-- Parse the rest of an object after one entry: a close brace or a comma
followed by an entry. -/
def parseObjTail : Nat → List Char → Option (List (List Char × JValue) × List Char)
  | 0, _ => none
  | f + 1, cs =>
    match skipWs cs with
    | [] => none
    | c :: r =>
      if c = '}' then some ([], r)
      else if c = ',' then
        match skipWs r with
        | [] => none
        | c2 :: rk =>
          if c2 = '"' then
            match parseStr rk with
            | none => none
            | some (k, r2) =>
              match skipWs r2 with
              | [] => none
              | c3 :: r3 =>
                if c3 = ':' then
                  match parseJ f r3 with
                  | none => none
                  | some (v, r4) =>
                    match parseObjTail f r4 with
                    | none => none
                    | some (kvs, r5) => some ((k, v) :: kvs, r5)
                else none
          else none
      else none
end

/-- Whether a character list does not begin with a decimal digit (the
condition under which the number parser stops exactly at a serialized
integer). -/
def headNotDigit : List Char → Bool
  | [] => true
  | c :: _ => !c.isDigit

mutual
/-- Parser fuel sufficient for a value produced by the printer. -/
def needJ : JValue → Nat
  | .arr xs => 1 + needT xs
  | .obj kvs => 1 + needO kvs
  | _ => 1

/-- Parser fuel sufficient for an array tail. -/
def needT : List JValue → Nat
  | [] => 1
  | v :: vs => 1 + max (needJ v) (needT vs)

/-- Parser fuel sufficient for an object tail. -/
def needO : List (List Char × JValue) → Nat
  | [] => 1
  | kv :: kvs => 1 + max (needJ kv.2) (needO kvs)
end

/-- Top-level `json.loads`: parse one value and require only whitespace
after it. -/
def jsonLoads (cs : List Char) : Option JValue :=
  match parseJ (cs.length + 1) cs with
  | some (v, r) => if skipWs r = [] then some v else none
  | none => none

/-- `json_dump_bytes` of cookie/backend.py: `json.dumps(content).encode("utf-8")`.
The dump is pure ASCII (`ensure_ascii=True`), so the UTF-8 bytes are the
character codes. -/
def json_dump_bytes (content : List (List Char × JValue)) : List Nat :=
  (dumpJ (.obj content)).map Char.toNat

/-- Read one UTF-8 continuation byte. -/
def utf8Cont1 : List Nat → Option (Nat × List Nat)
  | b2 :: rest2 => if 128 ≤ b2 ∧ b2 < 192 then some (b2 - 128, rest2) else none
  | _ => none

/-- Read two UTF-8 continuation bytes. -/
def utf8Cont2 : List Nat → Option (Nat × List Nat)
  | b2 :: b3 :: rest2 =>
    if (128 ≤ b2 ∧ b2 < 192) ∧ (128 ≤ b3 ∧ b3 < 192) then
      some ((b2 - 128) * 64 + (b3 - 128), rest2)
    else none
  | _ => none

/-- Read three UTF-8 continuation bytes. -/
def utf8Cont3 : List Nat → Option (Nat × List Nat)
  | b2 :: b3 :: b4 :: rest2 =>
    if (128 ≤ b2 ∧ b2 < 192) ∧ (128 ≤ b3 ∧ b3 < 192) ∧ (128 ≤ b4 ∧ b4 < 192) then
      some ((b2 - 128) * 4096 + (b3 - 128) * 64 + (b4 - 128), rest2)
    else none
  | _ => none

def utf8DecodeF : Nat → List Nat → Option (List Char)
  | 0, _ => none
  | _ + 1, [] => some []
  | f + 1, b :: rest =>
    if b < 128 then (utf8DecodeF f rest).map (Char.ofNat b :: ·)
    else if b < 192 then none
    else if b < 224 then
      match utf8Cont1 rest with
      | some (v, rest2) =>
        let n := (b - 192) * 64 + v
        if n < 128 then none else (utf8DecodeF f rest2).map (Char.ofNat n :: ·)
      | none => none
    else if b < 240 then
      match utf8Cont2 rest with
      | some (v, rest2) =>
        let n := (b - 224) * 4096 + v
        if n < 2048 ∨ (55296 ≤ n ∧ n ≤ 57343) then none
        else (utf8DecodeF f rest2).map (Char.ofNat n :: ·)
      | none => none
    else if b < 248 then
      match utf8Cont3 rest with
      | some (v, rest2) =>
        let n := (b - 240) * 262144 + v
        if n < 65536 ∨ 1114111 < n then none
        else (utf8DecodeF f rest2).map (Char.ofNat n :: ·)
      | none => none
    else none

/-- UTF-8 decoding of a byte list, as Python `bytes.decode("utf-8")`;
`none` models a raised `UnicodeDecodeError`.  Each step consumes at least
one byte, so input length plus one is always enough fuel. -/
def utf8Decode (bs : List Nat) : Option (List Char) :=
  utf8DecodeF (bs.length + 1) bs

/-- `json_load_bytes` of cookie/backend.py:
`json.loads(content.decode("utf-8"))`; `none` models a raised
`UnicodeDecodeError` or `JSONDecodeError`. -/
def json_load_bytes (content : List Nat) : Option JValue :=
  match utf8Decode content with
  | none => none
  | some cs => jsonLoads cs

/-! ## Cookie content pipeline (cookie/backend.py, CookieSessionBackend)

The serializer pair is fixed to the default `json_dump_bytes` /
`json_load_bytes`; the sign/unsign hooks are the overridable methods
`sign_content` / `unsign_content`, so they are fields here.  `unsign`
returns `none` to model a raised `ValueError`. -/

structure CookieBackend where
  sign : List Nat → List Nat
  unsign : List Nat → Option (List Nat)

/-- `CookieSessionBackend.save_content`: serialize, sign, base64url-encode,
decode to str (the encoding is ASCII, so the str is the characters of the
base64 alphabet). -/
def save_content (B : CookieBackend) (content : List (List Char × JValue)) : List Char :=
  urlsafe_b64encode (B.sign (json_dump_bytes content))

/-- `CookieSessionBackend.load_content`: base64url-decode, unsign,
deserialize; any `UnicodeDecodeError` or `ValueError` from any stage is
caught and yields the empty mapping (fail open).  The result is the raw
`json.loads` value (the source casts it to a mapping without checking). -/
def load_content (B : CookieBackend) (content : List Char) : JValue :=
  match urlsafe_b64decode content with
  | none => .obj []
  | some decoded =>
    match B.unsign decoded with
    | none => .obj []
    | some unsigned =>
      match json_load_bytes unsigned with
      | none => .obj []
      | some v => v

/-- The base `CookieSessionBackend`: `sign_content` and `unsign_content`
return the bytes unchanged. -/
def plainCookieBackend : CookieBackend := ⟨fun b => b, fun b => some b⟩

/-! ## Timestamped signer

Modelled from the spec: the concrete signer is the third-party
`itsdangerous.TimestampSigner` (not part of this repository); per spec
section 4.5, `sign` embeds a signing timestamp plus a keyed signature
over the serialized bytes, and `unsign` verifies the signature and
additionally rejects expired timestamps when `max_age` is finite.
The keyed signature is an abstract function `mac`; the separator byte is
46 (the dot used between payload, timestamp and signature fields); the
timestamp is in decimal digits. -/

/-- Separator byte between the payload, timestamp and signature fields. -/
def sepByte : Nat := 46

/-- Decimal byte rendering of a timestamp. -/
def tsBytes (t : Nat) : List Nat := (natToDec t).map Char.toNat

/-- Decimal value of timestamp bytes, if they are a nonempty digit run. -/
def tsVal (bs : List Nat) : Option Nat :=
  if bs ≠ [] ∧ bs.all (fun b => 48 ≤ b ∧ b ≤ 57) then
    some (bs.foldl (fun a b => a * 10 + (b - 48)) 0)
  else none

/-- Split a byte list at its last separator byte: returns the part before
and the part after, the latter free of separators. -/
def splitLastSep (m : List Nat) : Option (List Nat × List Nat) :=
  match (m.reverse.span (fun b => b != sepByte)).2 with
  | b :: before =>
    if b = sepByte then
      some (before.reverse, (m.reverse.span (fun b => b != sepByte)).1.reverse)
    else none
  | [] => none

/-- Modelled from the spec: signing — payload, separator, timestamp,
separator, keyed signature over payload-plus-timestamp. -/
def tsign (mac : List Nat → List Nat) (ts : Nat) (b : List Nat) : List Nat :=
  b ++ sepByte :: tsBytes ts ++ sepByte :: mac (b ++ sepByte :: tsBytes ts)

/-- Modelled from the spec: unsigning — verify the keyed signature over
the pre-signature part, recover the timestamp, and reject when
`now − signed_at > max_age` for finite `max_age`.  `none` models the
`ValueError` that `SignedCookieSessionBackend.unsign_content` raises
from `BadSignature`. -/
def tunsign (mac : List Nat → List Nat) (now : Nat) (maxAge : Option Nat)
    (m : List Nat) : Option (List Nat) :=
  match splitLastSep m with
  | none => none
  | some (p1, sig) =>
    if sig = mac p1 then
      match splitLastSep p1 with
      | none => none
      | some (payload, tsb) =>
        match tsVal tsb with
        | none => none
        | some t =>
          match maxAge with
          | none => some payload
          | some a => if now - t > a then none else some payload
    else none

/-- The `SignedCookieSessionBackend` pipeline with the spec-modelled
timestamped signer: `ts` is the signing time, `now` the verification
time, `maxAge` the backend max age. -/
def signedCookieBackend (mac : List Nat → List Nat) (ts now : Nat)
    (maxAge : Option Nat) : CookieBackend :=
  ⟨tsign mac ts, tunsign mac now maxAge⟩

/-! ## Bound-session state machine (base.py)

`BaseBackendSession` / `StandardBackendSession`, generic in the value
type `α`.  The fields mirror `_sid`, `_accessed`, `_modified` and
`__session`; backend interactions are recorded as an explicit call list.
The backing `BaseSessionBackend` is a load function plus the identifier
`new_session` would issue. -/

structure SBackend (α : Type) where
  loadSession : String → Option (List (String × α))
  newSid : String

/-- One observable backend interaction. -/
inductive BCall (α : Type) where
  | load (sid : String)
  | new (sid : String)
  | save (sid : String) (content : List (String × α))
  | keep (sid : String)

structure BState (α : Type) where
  sid : Option String
  accessed : Bool
  modified : Bool
  session : Option (List (String × α))

/-- `BaseBackendSession.__init__`: stores the sid, performs no backend
interaction. -/
def initSession (α : Type) (sid : Option String) : BState α :=
  ⟨sid, false, false, none⟩

/-- The `accessed` property: `self._accessed or self._modified`. -/
def accessedProp {α : Type} (s : BState α) : Bool := s.accessed || s.modified

/-- Mapping update as Python dict assignment: replace in place if the key
is present, append otherwise. -/
def alSet {α : Type} : List (String × α) → String → α → List (String × α)
  | [], k, v => [(k, v)]
  | (k0, v0) :: rest, k, v =>
    if k0 = k then (k, v) :: rest else (k0, v0) :: alSet rest k v

/-- Mapping deletion as Python dict `del` (the key is assumed present by
the caller). -/
def alDel {α : Type} : List (String × α) → String → List (String × α)
  | [], _ => []
  | (k0, v0) :: rest, k => if k0 = k then rest else (k0, v0) :: alDel rest k

/-- Mapping lookup as Python dict `[]`; `none` is a `KeyError`. -/
def alGet {α : Type} : List (String × α) → String → Option α
  | [], _ => none
  | (k0, v0) :: rest, k => if k0 = k then some v0 else alGet rest k

/-- `BaseBackendSession.__join_or_open_session`: if no session is bound,
join via `load_session` when a sid exists, then open a fresh session via
`new_session` when still unbound.  Returns the mapping, the new state and
the backend calls made. -/
def joinOrOpen {α : Type} (B : SBackend α) (s : BState α) :
    List (String × α) × BState α × List (BCall α) :=
  match s.session with
  | some m => (m, s, [])
  | none =>
    match s.sid with
    | some sid =>
      match B.loadSession sid with
      | some m => (m, { s with session := some m }, [.load sid])
      | none =>
        ([], { s with sid := some B.newSid, session := some [] },
          [.load sid, .new B.newSid])
    | none =>
      ([], { s with sid := some B.newSid, session := some [] }, [.new B.newSid])

/-- `__getitem__`: set `_accessed`, raise `KeyError` when no sid exists,
else join-or-open and index.  The first component is the looked-up value
(`none` models `KeyError`). -/
def getItem {α : Type} (B : SBackend α) (k : String) (s : BState α) :
    Option α × BState α × List (BCall α) :=
  let s1 := { s with accessed := true }
  match s1.sid with
  | none => (none, s1, [])
  | some _ =>
    let r := joinOrOpen B s1
    (alGet r.1 k, r.2.1, r.2.2)

/-- `__setitem__`: set `_accessed`, join-or-open, write, set `_modified`. -/
def setItem {α : Type} (B : SBackend α) (k : String) (v : α) (s : BState α) :
    BState α × List (BCall α) :=
  let s1 := { s with accessed := true }
  let r := joinOrOpen B s1
  ({ r.2.1 with session := some (alSet r.1 k v), modified := true }, r.2.2)

/-- `__delitem__`: set `_accessed`, raise `KeyError` when no sid exists,
else join-or-open and delete; `_modified` is set only when the delete
succeeds (a missing key raises before the `_modified` line).  The first
component is whether the delete succeeded. -/
def delItem {α : Type} (B : SBackend α) (k : String) (s : BState α) :
    Bool × BState α × List (BCall α) :=
  let s1 := { s with accessed := true }
  match s1.sid with
  | none => (false, s1, [])
  | some _ =>
    let r := joinOrOpen B s1
    match alGet r.1 k with
    | none => (false, r.2.1, r.2.2)
    | some _ =>
      (true, { r.2.1 with session := some (alDel r.1 k), modified := true }, r.2.2)

/-- `__len__`: set `_accessed`; when a sid exists, join-or-open (and
discard the computed length); return 0 — exactly as the source does. -/
def lenOp {α : Type} (B : SBackend α) (s : BState α) :
    Nat × BState α × List (BCall α) :=
  let s1 := { s with accessed := true }
  match s1.sid with
  | none => (0, s1, [])
  | some _ =>
    let r := joinOrOpen B s1
    (0, r.2.1, r.2.2)

/-- `__iter__`: set `_accessed`; when a sid exists, join-or-open and
iterate the mapping keys; else the empty iterator. -/
def iterOp {α : Type} (B : SBackend α) (s : BState α) :
    List String × BState α × List (BCall α) :=
  let s1 := { s with accessed := true }
  match s1.sid with
  | none => ([], s1, [])
  | some _ =>
    let r := joinOrOpen B s1
    (r.1.map Prod.fst, r.2.1, r.2.2)

/-- `clear`: when a session is bound, empty it and set `_modified`;
the outer `none` models the `RuntimeError` that `__session_exists`
raises when a session is bound without a sid (unreachable from the
constructor, see `reachable_inv`). -/
def clearOp {α : Type} (s : BState α) : Option (BState α) :=
  match s.session with
  | none => some s
  | some _ =>
    match s.sid with
    | none => none
    | some _ => some { s with session := some [], modified := true }

/-- The terminal `content` property: commit when a session is bound,
touch when only a sid exists, else no cookie.  The outer `none` models
the `RuntimeError` of `__session_exists` (unreachable, see
`reachable_inv`). -/
def contentOp {α : Type} (s : BState α) :
    Option (Option String × List (BCall α)) :=
  match s.session with
  | some m =>
    match s.sid with
    | none => none
    | some sid => some (some sid, [.save sid m])
  | none =>
    match s.sid with
    | some sid => some (some sid, [.keep sid])
    | none => some (none, [])

/-- The mapping operations used to drive the state machine through a
request. -/
inductive SOp (α : Type) where
  | get (k : String)
  | set (k : String) (v : α)
  | del (k : String)
  | len
  | iter
  | clear

/-- Apply one operation, returning the new state and backend calls; the
unreachable `RuntimeError` branch of `clear` leaves the state unchanged. -/
def runOp {α : Type} (B : SBackend α) (op : SOp α) (s : BState α) :
    BState α × List (BCall α) :=
  match op with
  | .get k => let r := getItem B k s; (r.2.1, r.2.2)
  | .set k v => setItem B k v s
  | .del k => let r := delItem B k s; (r.2.1, r.2.2)
  | .len => let r := lenOp B s; (r.2.1, r.2.2)
  | .iter => let r := iterOp B s; (r.2.1, r.2.2)
  | .clear =>
    match clearOp s with
    | some s1 => (s1, [])
    | none => (s, [])

/-- Apply a list of operations in order, accumulating backend calls. -/
def runOps {α : Type} (B : SBackend α) : List (SOp α) → BState α →
    BState α × List (BCall α)
  | [], s => (s, [])
  | op :: ops, s =>
    let r := runOp B op s
    let r2 := runOps B ops r.1
    (r2.1, r.2 ++ r2.2)

/-- Count the `load_session` calls in a call list. -/
def countLoad {α : Type} : List (BCall α) → Nat
  | [] => 0
  | .load _ :: rest => countLoad rest + 1
  | _ :: rest => countLoad rest

/-- Count the `save_session` calls in a call list. -/
def countSave {α : Type} : List (BCall α) → Nat
  | [] => 0
  | .save _ _ :: rest => countSave rest + 1
  | _ :: rest => countSave rest

/-- Count the `keep_session` calls in a call list. -/
def countKeep {α : Type} : List (BCall α) → Nat
  | [] => 0
  | .keep _ :: rest => countKeep rest + 1
  | _ :: rest => countKeep rest

/-! ## Self-contained cookie session state (cookie/base.py)

`StandardCookieBackendSession`: content is materialized eagerly at
construction; `__accessed` and `__cleared` are plain booleans. -/

structure CState where
  content : List (List Char × JValue)
  accessed : Bool
  cleared : Bool

/-- Coerce the raw `json.loads` result to the mapping the source casts it
to (claims only exercise object-valued tokens and absent tokens). -/
def asObj : JValue → List (List Char × JValue)
  | .obj kvs => kvs
  | _ => []

/-- `StandardCookieBackendSession.__init__`: load the content from the
inbound token when present, else start empty; `accessed` and `cleared`
start false. -/
def cookieInit (B : CookieBackend) (tok : Option (List Char)) : CState :=
  ⟨match tok with
   | none => []
   | some t => asObj (load_content B t), false, false⟩

/-- `__setitem__`: set `accessed`, write, reset `cleared`. -/
def cookieSet (s : CState) (k : List Char) (v : JValue) : CState :=
  { s with accessed := true, content := jalSet s.content k v, cleared := false }
where
  jalSet : List (List Char × JValue) → List Char → JValue → List (List Char × JValue)
    | [], k, v => [(k, v)]
    | (k0, v0) :: rest, k, v =>
      if k0 = k then (k, v) :: rest else (k0, v0) :: jalSet rest k v

/-- `__iter__`: set `accessed`, iterate the keys. -/
def cookieIter (s : CState) : List (List Char) × CState :=
  (s.content.map Prod.fst, { s with accessed := true })

/-- `clear`: sets `accessed`, empties the mapping via the inherited
`MutableMapping.clear` (repeated `popitem`), and sets `cleared`. -/
def cookieClear (s : CState) : CState :=
  { s with accessed := true, content := [], cleared := true }

/-- The `content` property: `None` when cleared; otherwise recompute the
token over `dict(self)` — and building `dict(self)` iterates the
session's own mapping interface, so it sets `accessed`. -/
def cookieContent (B : CookieBackend) (s : CState) : Option (List Char) × CState :=
  if s.cleared then (none, s)
  else
    let d := cookieIter s
    (some (save_content B d.2.content), d.2)

/-- Apply a sequence of `__setitem__` writes to a cookie session. -/
def cookieSets : CState → List (List Char × JValue) → CState
  | s, [] => s
  | s, (k, v) :: rest => cookieSets (cookieSet s k v) rest

/-! ## Lemmas: base64url -/

theorem b64val_b64char {n : Nat} (h : n < 64) : b64val (b64char n) = some n := by
  have all : ∀ m : Fin 64, b64val (b64char m.1) = some m.1 := by decide
  exact all ⟨n, h⟩

theorem b64char_ne_pad {n : Nat} (h : n < 64) : (b64char n = '=') = False := by
  have all : ∀ m : Fin 64, b64char m.1 ≠ '=' := by decide
  exact eq_false (all ⟨n, h⟩)

theorem b64_roundtrip : ∀ bs : List Nat, (∀ b ∈ bs, b < 256) →
    urlsafe_b64decode (urlsafe_b64encode bs) = some bs
  | [], _ => rfl
  | [a], h => by
    have ha : a < 256 := h a (by simp)
    have h1 : a / 4 < 64 := by omega
    have h2 : a % 4 * 16 < 64 := by omega
    simp only [urlsafe_b64encode, urlsafe_b64decode, b64val_b64char h1, b64val_b64char h2]
    simp only [if_pos rfl, and_self, ite_true, Option.some.injEq, List.cons.injEq, and_true]
    omega
  | [a, b], h => by
    have ha : a < 256 := h a (by simp)
    have hb : b < 256 := h b (by simp)
    have h1 : a / 4 < 64 := by omega
    have h2 : a % 4 * 16 + b / 16 < 64 := by omega
    have h3 : b % 16 * 4 < 64 := by omega
    simp only [urlsafe_b64encode, urlsafe_b64decode, b64val_b64char h1, b64val_b64char h2,
      b64char_ne_pad h3, if_false, b64val_b64char h3]
    simp only [if_pos rfl, ite_true, Option.some.injEq, List.cons.injEq, and_true]
    constructor <;> omega
  | a :: b :: c :: rest, h => by
    have ha : a < 256 := h a (by simp)
    have hb : b < 256 := h b (by simp)
    have hc : c < 256 := h c (by simp)
    have h1 : a / 4 < 64 := by omega
    have h2 : a % 4 * 16 + b / 16 < 64 := by omega
    have h3 : b % 16 * 4 + c / 64 < 64 := by omega
    have h4 : c % 64 < 64 := by omega
    have ih := b64_roundtrip rest (fun x hx => h x (by simp [hx]))
    simp only [urlsafe_b64encode, urlsafe_b64decode, b64val_b64char h1, b64val_b64char h2,
      b64char_ne_pad h3, if_false, b64val_b64char h3, b64char_ne_pad h4, b64val_b64char h4, ih,
      Option.map_some', Option.some.injEq, List.cons.injEq]
    exact ⟨by omega, by omega, by omega, trivial⟩

/-! ## Lemmas: decimal digits -/

theorem natToDecAux_acc : ∀ (f n : Nat) (acc : List Char),
    natToDecAux f n acc = natToDecAux f n [] ++ acc := by
  intro f
  induction f with
  | zero => intro n acc; rfl
  | succ f ih =>
    intro n acc
    by_cases h : n < 10
    · simp [natToDecAux, h]
    · simp only [natToDecAux, if_neg h]
      rw [ih (n / 10) (digitChar (n % 10) :: acc), ih (n / 10) [digitChar (n % 10)]]
      simp

theorem natToDecAux_fuel : ∀ (f f' n : Nat), n < f → n < f' →
    natToDecAux f n [] = natToDecAux f' n [] := by
  intro f
  induction f with
  | zero => intro f' n h; omega
  | succ f ih =>
    intro f' n h h'
    match f', h' with
    | f' + 1, h' =>
      by_cases h10 : n < 10
      · simp [natToDecAux, h10]
      · simp only [natToDecAux, if_neg h10]
        rw [natToDecAux_acc f (n / 10), natToDecAux_acc f' (n / 10)]
        rw [ih f' (n / 10) (by omega) (by omega)]

theorem natToDec_small {n : Nat} (h : n < 10) : natToDec n = [digitChar n] := by
  simp [natToDec, natToDecAux, h]

theorem natToDec_step {n : Nat} (h : 10 ≤ n) :
    natToDec n = natToDec (n / 10) ++ [digitChar (n % 10)] := by
  show natToDecAux (n + 1) n [] = _
  simp only [natToDecAux, if_neg (by omega : ¬ n < 10)]
  rw [natToDecAux_acc n (n / 10)]
  rw [natToDecAux_fuel n (n / 10 + 1) (n / 10) (by omega) (by omega)]
  rfl

theorem digitChar_facts : ∀ d : Fin 10, (digitChar d.1).isDigit = true ∧
    (digitChar d.1).toNat = 48 + d.1 ∧ isJWs (digitChar d.1) = false := by decide

theorem digitChar_isDigit {d : Nat} (h : d < 10) : (digitChar d).isDigit = true :=
  (digitChar_facts ⟨d, h⟩).1

theorem digitChar_toNat {d : Nat} (h : d < 10) : (digitChar d).toNat = 48 + d :=
  (digitChar_facts ⟨d, h⟩).2.1

theorem natToDec_digits : ∀ n : Nat, ∀ c ∈ natToDec n, c.isDigit = true := by
  intro n
  induction n using Nat.strong_induction_on with
  | _ n ih =>
    by_cases h : n < 10
    · rw [natToDec_small h]
      intro c hc
      simp only [List.mem_singleton] at hc
      exact hc ▸ (digitChar_facts ⟨n, h⟩).1
    · rw [natToDec_step (by omega)]
      intro c hc
      rcases List.mem_append.mp hc with hc | hc
      · exact ih (n / 10) (by omega) c hc
      · simp only [List.mem_singleton] at hc
        exact hc ▸ (digitChar_facts ⟨n % 10, by omega⟩).1

theorem natToDec_ne_nil (n : Nat) : natToDec n ≠ [] := by
  by_cases h : n < 10
  · rw [natToDec_small h]; simp
  · rw [natToDec_step (by omega)]; simp

theorem digitsVal_natToDec : ∀ n : Nat, digitsVal (natToDec n) = n := by
  intro n
  induction n using Nat.strong_induction_on with
  | _ n ih =>
    by_cases h : n < 10
    · rw [natToDec_small h]
      show 0 * 10 + ((digitChar n).toNat - 48) = n
      rw [digitChar_toNat h]
      omega
    · rw [natToDec_step (by omega)]
      show List.foldl _ 0 (natToDec (n / 10) ++ [digitChar (n % 10)]) = n
      rw [List.foldl_append]
      have := ih (n / 10) (by omega)
      show (digitsVal (natToDec (n / 10))) * 10 + ((digitChar (n % 10)).toNat - 48) = n
      rw [this, digitChar_toNat (by omega : n % 10 < 10)]
      omega

theorem takeWhile_all_append {α : Type} {p : α → Bool} : ∀ (xs rest : List α),
    (∀ c ∈ xs, p c = true) → (∀ c rs, rest = c :: rs → p c = false) →
    (xs ++ rest).takeWhile p = xs ∧ (xs ++ rest).dropWhile p = rest := by
  intro xs
  induction xs with
  | nil =>
    intro rest _ hr
    match rest with
    | [] => simp
    | c :: rs => simp [List.takeWhile, List.dropWhile, hr c rs rfl]
  | cons x xs ih =>
    intro rest hall hr
    have hx : p x = true := hall x (by simp)
    have := ih rest (fun c hc => hall c (by simp [hc])) hr
    simp [List.takeWhile, List.dropWhile, hx, this.1, this.2]

theorem natToDec_head (n : Nat) : ∃ d tl, natToDec n = digitChar d :: tl ∧ d < 10 := by
  induction n using Nat.strong_induction_on with
  | _ n ih =>
    by_cases h : n < 10
    · exact ⟨n, [], natToDec_small h, h⟩
    · obtain ⟨d, tl, hd, hlt⟩ := ih (n / 10) (by omega)
      exact ⟨d, tl ++ [digitChar (n % 10)], by rw [natToDec_step (by omega), hd]; rfl, hlt⟩

theorem parseNatNum_natToDec (n : Nat) (rest : List Char)
    (hrest : headNotDigit rest = true) :
    parseNatNum (natToDec n ++ rest) = some (.int n, rest) := by
  have hr : ∀ c rs, rest = c :: rs → c.isDigit = false := by
    intro c rs hEq
    rw [hEq] at hrest
    simpa [headNotDigit] using hrest
  have h := takeWhile_all_append (natToDec n) rest (natToDec_digits n) hr
  simp only [parseNatNum, h.1, h.2]
  rw [if_neg (by simpa [List.isEmpty_iff] using natToDec_ne_nil n)]
  rw [digitsVal_natToDec]

/-! ## Lemmas: string escaping -/

theorem hexVal_hexDigit {d : Nat} (h : d < 16) : hexVal (hexDigit d) = some d := by
  have all : ∀ m : Fin 16, hexVal (hexDigit m.1) = some m.1 := by decide
  exact all ⟨d, h⟩

theorem char_valid (c : Char) :
    c.toNat < 55296 ∨ (57344 ≤ c.toNat ∧ c.toNat < 1114112) := by
  have h := c.valid
  unfold UInt32.isValidChar Nat.isValidChar at h
  have e : c.toNat = c.val.toNat := rfl
  rcases h with h | h
  · left; omega
  · right; omega


theorem escapeChar_length_pos (c : Char) : 1 ≤ (escapeChar c).length := by
  unfold escapeChar
  split_ifs <;> simp [toHex4]

theorem escapeStr_length (s : List Char) : s.length ≤ (escapeStr s).length := by
  induction s with
  | nil => simp [escapeStr]
  | cons c s ih =>
    have h1 : escapeStr (c :: s) = escapeChar c ++ escapeStr s := by simp [escapeStr]
    have h2 := escapeChar_length_pos c
    rw [h1, List.length_append]
    simp only [List.length_cons]
    omega

theorem readHex4_toHex4 {n : Nat} (hlt : n < 65536) (r3 : List Char) :
    readHex4 (toHex4 n ++ r3) = some (n, r3) := by
  have ha : n / 4096 % 16 < 16 := by omega
  have hb : n / 256 % 16 < 16 := by omega
  have hc : n / 16 % 16 < 16 := by omega
  have hd : n % 16 < 16 := by omega
  simp only [toHex4, List.cons_append, List.nil_append, readHex4,
    hexVal_hexDigit ha, hexVal_hexDigit hb, hexVal_hexDigit hc, hexVal_hexDigit hd]
  congr 2
  omega

theorem readLowSurrogate_toHex4 {m : Nat} (h1 : 56320 ≤ m) (h2 : m ≤ 57343)
    (r4 : List Char) :
    readLowSurrogate ('\\' :: 'u' :: (toHex4 m ++ r4)) = some (m, r4) := by
  simp only [readLowSurrogate, readHex4_toHex4 (show m < 65536 by omega) r4]
  simp [h1, h2]

theorem readEscape_u_bmp {n : Nat} (hlt : n < 65536) (hno : ¬ (55296 ≤ n ∧ n ≤ 57343))
    (r3 : List Char) :
    readEscape ('u' :: (toHex4 n ++ r3)) = some (Char.ofNat n, r3) := by
  simp only [readEscape, reduceIte, readHex4_toHex4 hlt r3]
  rw [if_neg (by omega), if_neg (by omega)]

theorem readEscape_u_pair {t : Nat} (hge : 65536 ≤ t) (hlt : t < 1114112) (r4 : List Char) :
    readEscape ('u' :: (toHex4 (55296 + (t - 65536) / 1024) ++
      '\\' :: 'u' :: (toHex4 (56320 + (t - 65536) % 1024) ++ r4))) =
      some (Char.ofNat t, r4) := by
  simp only [readEscape, reduceIte,
    readHex4_toHex4 (show 55296 + (t - 65536) / 1024 < 65536 by omega)]
  rw [if_pos (by omega : 55296 ≤ 55296 + (t - 65536) / 1024 ∧
    55296 + (t - 65536) / 1024 ≤ 56319)]
  rw [readLowSurrogate_toHex4 (by omega) (by omega) r4]
  show some (Char.ofNat (65536 + (55296 + (t - 65536) / 1024 - 55296) * 1024 +
    (56320 + (t - 65536) % 1024 - 56320)), r4) = some (Char.ofNat t, r4)
  rw [show 65536 + (55296 + (t - 65536) / 1024 - 55296) * 1024 +
    (56320 + (t - 65536) % 1024 - 56320) = t from by omega]

theorem readEscape_escapeChar (c : Char) (tail : List Char)
    (h1 : ¬ c = '"') (h2 : ¬ c = '\\') (h3 : ¬ c = '\x08') (h4 : ¬ c = '\x0c')
    (h5 : ¬ c = '\n') (h6 : ¬ c = '\r') (h7 : ¬ c = '\t')
    (h8 : c.toNat < 32 ∨ 126 < c.toNat) :
    ∃ pre, escapeChar c = '\\' :: pre ∧ readEscape (pre ++ tail) = some (c, tail) := by
  have hval := char_valid c
  unfold escapeChar
  rw [if_neg h1, if_neg h2, if_neg h3, if_neg h4, if_neg h5, if_neg h6, if_neg h7,
    if_pos h8]
  by_cases h9 : c.toNat < 65536
  · rw [if_pos h9]
    refine ⟨'u' :: toHex4 c.toNat, rfl, ?_⟩
    show readEscape ('u' :: (toHex4 c.toNat ++ tail)) = _
    rw [readEscape_u_bmp h9 (by omega) tail, Char.ofNat_toNat]
  · rw [if_neg h9]
    refine ⟨'u' :: (toHex4 (55296 + (c.toNat - 65536) / 1024) ++
      '\\' :: 'u' :: toHex4 (56320 + (c.toNat - 65536) % 1024)), by simp, ?_⟩
    have hassoc : ('u' :: (toHex4 (55296 + (c.toNat - 65536) / 1024) ++
        '\\' :: 'u' :: toHex4 (56320 + (c.toNat - 65536) % 1024))) ++ tail =
        'u' :: (toHex4 (55296 + (c.toNat - 65536) / 1024) ++
        '\\' :: 'u' :: (toHex4 (56320 + (c.toNat - 65536) % 1024) ++ tail)) := by simp
    rw [hassoc, readEscape_u_pair (by omega) (by omega) tail, Char.ofNat_toNat]

theorem parseStrF_escape : ∀ (g : Nat) (s rest : List Char), s.length < g →
    parseStrF g (escapeStr s ++ '"' :: rest) = some (s, rest) := by
  intro g
  induction g with
  | zero => intro s rest h; omega
  | succ g ih =>
    intro s rest h
    match s with
    | [] =>
      show parseStrF (g + 1) ('"' :: rest) = _
      simp [parseStrF]
    | c :: s =>
      have hesc : escapeStr (c :: s) = escapeChar c ++ escapeStr s := by simp [escapeStr]
      rw [hesc, List.append_assoc]
      have hs : s.length < g := by
        simp only [List.length_cons] at h; omega
      have ih' := ih s rest hs
      by_cases h1 : c = '"'
      · subst h1
        rw [show escapeChar '"' = ['\\', '"'] from rfl]
        simp [parseStrF, readEscape, ih']
      by_cases h2 : c = '\\'
      · subst h2
        rw [show escapeChar '\\' = ['\\', '\\'] from rfl]
        simp [parseStrF, readEscape, ih']
      by_cases h3 : c = '\x08'
      · subst h3
        rw [show escapeChar '\x08' = ['\\', 'b'] from rfl]
        simp [parseStrF, readEscape, ih']
      by_cases h4 : c = '\x0c'
      · subst h4
        rw [show escapeChar '\x0c' = ['\\', 'f'] from rfl]
        simp [parseStrF, readEscape, ih']
      by_cases h5 : c = '\n'
      · subst h5
        rw [show escapeChar '\n' = ['\\', 'n'] from rfl]
        simp [parseStrF, readEscape, ih']
      by_cases h6 : c = '\r'
      · subst h6
        rw [show escapeChar '\r' = ['\\', 'r'] from rfl]
        simp [parseStrF, readEscape, ih']
      by_cases h7 : c = '\t'
      · subst h7
        rw [show escapeChar '\t' = ['\\', 't'] from rfl]
        simp [parseStrF, readEscape, ih']
      by_cases h8 : c.toNat < 32 ∨ 126 < c.toNat
      · obtain ⟨pre, hpre, hread⟩ :=
          readEscape_escapeChar c (escapeStr s ++ '"' :: rest) h1 h2 h3 h4 h5 h6 h7 h8
        rw [hpre, List.cons_append]
        simp [parseStrF, hread, ih']
      · rw [show escapeChar c = [c] from by
          unfold escapeChar
          rw [if_neg h1, if_neg h2, if_neg h3, if_neg h4, if_neg h5, if_neg h6, if_neg h7,
            if_neg h8]]
        show parseStrF (g + 1) (c :: (escapeStr s ++ '"' :: rest)) = _
        simp [parseStrF, if_neg h1, if_neg h2, ih']

theorem parseStr_escape (s rest : List Char) :
    parseStr (escapeStr s ++ '"' :: rest) = some (s, rest) := by
  unfold parseStr
  apply parseStrF_escape
  have h1 := escapeStr_length s
  have h2 : (escapeStr s ++ '"' :: rest).length = (escapeStr s).length + (rest.length + 1) := by
    simp
  omega

/-! ## Lemmas: parser navigation -/

theorem skipWs_not_ws {c : Char} (h : isJWs c = false) (r : List Char) :
    skipWs (c :: r) = c :: r := by
  simp [skipWs, h]

theorem parseJ_ws {f : Nat} (hf : 0 < f) {c : Char} (h : isJWs c = true) (x : List Char) :
    parseJ f (c :: x) = parseJ f x := by
  match f, hf with
  | f + 1, _ =>
    rw [parseJ.eq_2, parseJ.eq_2]
    rw [show skipWs (c :: x) = skipWs x from by simp [skipWs, h]]

theorem digitChar_parse_facts : ∀ d : Fin 10,
    isJWs (digitChar d.1) = false ∧
    ¬ (digitChar d.1 = 'n') ∧ ¬ (digitChar d.1 = 't') ∧
    ¬ (digitChar d.1 = 'f') ∧ ¬ (digitChar d.1 = '"') ∧
    ¬ (digitChar d.1 = '[') ∧ ¬ (digitChar d.1 = '{') ∧
    ¬ (digitChar d.1 = ']') ∧ ¬ (digitChar d.1 = '}') ∧
    ¬ (digitChar d.1 = '-') ∧ (digitChar d.1).isDigit = true := by decide

theorem parseNum_intToDec (n : Int) (rest : List Char)
    (hrest : headNotDigit rest = true) :
    parseNum (intToDec n ++ rest) = some (.int n, rest) := by
  unfold intToDec
  by_cases h : n < 0
  · rw [if_pos h]
    show parseNum ('-' :: (natToDec n.natAbs ++ rest)) = _
    rw [parseNum.eq_2, if_pos rfl, parseNatNum_natToDec n.natAbs rest hrest]
    simp only [Option.map_some']
    have : -(n.natAbs : Int) = n := by omega
    rw [this]
  · rw [if_neg h]
    obtain ⟨d, tl, hd, hlt⟩ := natToDec_head n.toNat
    rw [hd, List.cons_append, parseNum.eq_2,
      if_neg ((digitChar_parse_facts ⟨d, hlt⟩).2.2.2.2.2.2.2.2.2.1),
      ← List.cons_append, ← hd, parseNatNum_natToDec n.toNat rest hrest]
    have : ((n.toNat : Int)) = n := by omega
    rw [this]

theorem dumpJ_shape (v : JValue) :
    ∃ c tl, dumpJ v = c :: tl ∧ isJWs c = false ∧ ¬ (c = ']') := by
  cases v with
  | null => exact ⟨'n', _, rfl, by decide, by decide⟩
  | bool b =>
    cases b
    · exact ⟨'f', _, rfl, by decide, by decide⟩
    · exact ⟨'t', _, rfl, by decide, by decide⟩
  | int n =>
    show ∃ c tl, intToDec n = c :: tl ∧ _
    unfold intToDec
    by_cases h : n < 0
    · rw [if_pos h]
      exact ⟨'-', _, rfl, by decide, by decide⟩
    · rw [if_neg h]
      obtain ⟨d, tl, hd, hlt⟩ := natToDec_head n.toNat
      refine ⟨digitChar d, tl, hd, (digitChar_parse_facts ⟨d, hlt⟩).1,
        (digitChar_parse_facts ⟨d, hlt⟩).2.2.2.2.2.2.2.1⟩
  | str s => exact ⟨'"', _, rfl, by decide, by decide⟩
  | arr xs =>
    cases xs
    · exact ⟨'[', _, rfl, by decide, by decide⟩
    · exact ⟨'[', _, rfl, by decide, by decide⟩
  | obj kvs =>
    cases kvs
    · exact ⟨'{', _, rfl, by decide, by decide⟩
    · exact ⟨'{', _, rfl, by decide, by decide⟩

theorem dumpJ_ne_nil (v : JValue) : dumpJ v ≠ [] := by
  obtain ⟨c, tl, h, _, _⟩ := dumpJ_shape v
  simp [h]

theorem headNotDigit_dumpArrTail (vs : List JValue) (rest : List Char) :
    headNotDigit (dumpArrTail vs ++ rest) = true := by
  cases vs <;> simp [dumpArrTail, headNotDigit]

theorem headNotDigit_dumpObjTail (kvs : List (List Char × JValue)) (rest : List Char) :
    headNotDigit (dumpObjTail kvs ++ rest) = true := by
  cases kvs <;> simp [dumpObjTail, headNotDigit]

theorem needJ_pos (v : JValue) : 1 ≤ needJ v := by
  cases v <;> simp [needJ]

theorem needT_pos (vs : List JValue) : 1 ≤ needT vs := by
  cases vs <;> simp [needT]

theorem needO_pos (kvs : List (List Char × JValue)) : 1 ≤ needO kvs := by
  cases kvs <;> simp [needO]

theorem dumpArrTail_len_pos (vs : List JValue) : 1 ≤ (dumpArrTail vs).length := by
  cases vs <;> simp [dumpArrTail]

theorem dumpObjTail_len_pos (kvs : List (List Char × JValue)) :
    1 ≤ (dumpObjTail kvs).length := by
  cases kvs <;> simp [dumpObjTail]

mutual
theorem needJ_le : ∀ v : JValue, needJ v ≤ (dumpJ v).length
  | .null => by simp [needJ, dumpJ]
  | .bool b => by cases b <;> simp [needJ, dumpJ]
  | .int n => by
    have h := dumpJ_ne_nil (.int n)
    have : 1 ≤ (dumpJ (.int n)).length := by
      cases he : dumpJ (.int n)
      · exact absurd he h
      · simp
    simpa [needJ] using this
  | .str s => by simp [needJ, dumpJ]
  | .arr [] => by simp [needJ, needT, dumpJ]
  | .arr (v :: vs) => by
    have h1 := needJ_le v
    have h2 := needT_le vs
    have h3 : 1 ≤ (dumpJ v).length := by
      have := dumpJ_ne_nil v
      cases he : dumpJ v
      · exact absurd he this
      · simp
    have h4 := dumpArrTail_len_pos vs
    have e1 : needJ (.arr (v :: vs)) = 1 + (1 + max (needJ v) (needT vs)) := by
      simp [needJ, needT]
    have e2 : (dumpJ (.arr (v :: vs))).length = 1 + ((dumpJ v).length + (dumpArrTail vs).length) := by
      simp [dumpJ]
      omega
    rw [e1, e2]
    omega
  | .obj [] => by simp [needJ, needO, dumpJ]
  | .obj ((k, v) :: kvs) => by
    have h1 := needJ_le v
    have h2 := needO_le kvs
    have h4 := dumpObjTail_len_pos kvs
    have e1 : needJ (.obj ((k, v) :: kvs)) = 1 + (1 + max (needJ v) (needO kvs)) := by
      simp [needJ, needO]
    have e2 : (dumpJ (.obj ((k, v) :: kvs))).length =
        1 + ((dumpEntry (k, v)).length + (dumpObjTail kvs).length) := by
      simp [dumpJ]
      omega
    have e3 : (dumpEntry (k, v)).length = 1 + (escapeStr k).length + 3 + (dumpJ v).length := by
      simp [dumpEntry]
      omega
    rw [e1, e2, e3]
    omega

theorem needT_le : ∀ vs : List JValue, needT vs ≤ (dumpArrTail vs).length
  | [] => by simp [needT, dumpArrTail]
  | v :: vs => by
    have h1 := needJ_le v
    have h2 := needT_le vs
    have e1 : needT (v :: vs) = 1 + max (needJ v) (needT vs) := by simp [needT]
    have e2 : (dumpArrTail (v :: vs)).length =
        2 + ((dumpJ v).length + (dumpArrTail vs).length) := by
      simp [dumpArrTail]
      omega
    rw [e1, e2]
    omega

theorem needO_le : ∀ kvs : List (List Char × JValue), needO kvs ≤ (dumpObjTail kvs).length
  | [] => by simp [needO, dumpObjTail]
  | (k, v) :: kvs => by
    have h1 := needJ_le v
    have h2 := needO_le kvs
    have e1 : needO ((k, v) :: kvs) = 1 + max (needJ v) (needO kvs) := by simp [needO]
    have e2 : (dumpObjTail ((k, v) :: kvs)).length =
        2 + ((dumpEntry (k, v)).length + (dumpObjTail kvs).length) := by
      simp [dumpObjTail]
      omega
    have e3 : (dumpEntry (k, v)).length = 1 + (escapeStr k).length + 3 + (dumpJ v).length := by
      simp [dumpEntry]
      omega
    rw [e1, e2, e3]
    omega
end

/-! ## Lemmas: the printed text is ASCII -/

theorem hexDigit_lt128 {d : Nat} (h : d < 16) : (hexDigit d).toNat < 128 := by
  have all : ∀ m : Fin 16, (hexDigit m.1).toNat < 128 := by decide
  exact all ⟨d, h⟩

set_option maxRecDepth 2048 in
theorem escapeChar_ascii (c0 : Char) : ∀ c ∈ escapeChar c0, c.toNat < 128 := by
  intro c hc
  unfold escapeChar at hc
  split_ifs at hc with h1 h2 h3 h4 h5 h6 h7 h8 h9
  · simp at hc; rcases hc with rfl | rfl <;> decide
  · simp at hc; rcases hc with rfl | rfl <;> decide
  · simp at hc; rcases hc with rfl | rfl <;> decide
  · simp at hc; rcases hc with rfl | rfl <;> decide
  · simp at hc; rcases hc with rfl | rfl <;> decide
  · simp at hc; rcases hc with rfl | rfl <;> decide
  · simp at hc; rcases hc with rfl | rfl <;> decide
  · simp [toHex4] at hc
    rcases hc with rfl | hc
    · decide
    rcases hc with rfl | hc
    · decide
    rcases hc with rfl | hc
    · exact hexDigit_lt128 (by omega)
    rcases hc with rfl | hc
    · exact hexDigit_lt128 (by omega)
    rcases hc with rfl | hc
    · exact hexDigit_lt128 (by omega)
    rw [hc]
    exact hexDigit_lt128 (by omega)
  · simp [toHex4] at hc
    rcases hc with rfl | hc
    · decide
    rcases hc with rfl | hc
    · decide
    rcases hc with rfl | hc
    · exact hexDigit_lt128 (by omega)
    rcases hc with rfl | hc
    · exact hexDigit_lt128 (by omega)
    rcases hc with rfl | hc
    · exact hexDigit_lt128 (by omega)
    rcases hc with rfl | hc
    · exact hexDigit_lt128 (by omega)
    rcases hc with rfl | hc
    · decide
    rcases hc with rfl | hc
    · decide
    rcases hc with rfl | hc
    · exact hexDigit_lt128 (by omega)
    rcases hc with rfl | hc
    · exact hexDigit_lt128 (by omega)
    rcases hc with rfl | hc
    · exact hexDigit_lt128 (by omega)
    rw [hc]
    exact hexDigit_lt128 (by omega)
  · simp at hc
    subst hc
    omega

theorem escapeStr_ascii (s : List Char) : ∀ c ∈ escapeStr s, c.toNat < 128 := by
  induction s with
  | nil => intro c hc; simp [escapeStr] at hc
  | cons c0 s ih =>
    intro c hc
    rw [show escapeStr (c0 :: s) = escapeChar c0 ++ escapeStr s from by simp [escapeStr]] at hc
    rcases List.mem_append.mp hc with hc | hc
    · exact escapeChar_ascii c0 c hc
    · exact ih c hc

theorem natToDec_ascii (n : Nat) : ∀ c ∈ natToDec n, c.toNat < 128 := by
  intro c hc
  have h := natToDec_digits n c hc
  have : ∀ d : Fin 10, (digitChar d.1).toNat < 128 := by decide
  -- every character of natToDec is a digitChar with argument below ten
  induction n using Nat.strong_induction_on with
  | _ n ih =>
    by_cases hn : n < 10
    · rw [natToDec_small hn] at hc
      simp at hc
      subst hc
      have := digitChar_toNat hn
      omega
    · rw [natToDec_step (by omega)] at hc
      rcases List.mem_append.mp hc with hc2 | hc2
      · exact ih (n / 10) (by omega) hc2
      · simp at hc2
        subst hc2
        have := digitChar_toNat (show n % 10 < 10 by omega)
        omega

theorem intToDec_ascii (n : Int) : ∀ c ∈ intToDec n, c.toNat < 128 := by
  intro c hc
  unfold intToDec at hc
  by_cases h : n < 0
  · rw [if_pos h] at hc
    rcases List.mem_cons.mp hc with rfl | hc2
    · decide
    · exact natToDec_ascii _ c hc2
  · rw [if_neg h] at hc
    exact natToDec_ascii _ c hc

mutual
theorem dumpJ_ascii : ∀ v : JValue, ∀ c ∈ dumpJ v, c.toNat < 128
  | .null => by intro c hc; simp [dumpJ] at hc; rcases hc with rfl | rfl | rfl <;> decide
  | .bool true => by
    intro c hc; simp [dumpJ] at hc; rcases hc with rfl | rfl | rfl | rfl <;> decide
  | .bool false => by
    intro c hc; simp [dumpJ] at hc; rcases hc with rfl | rfl | rfl | rfl | rfl <;> decide
  | .int n => by intro c hc; exact intToDec_ascii n c hc
  | .str s => by
    intro c hc
    rw [show dumpJ (.str s) = '"' :: (escapeStr s ++ ['"']) from by simp [dumpJ]] at hc
    rcases List.mem_cons.mp hc with rfl | hc2
    · decide
    rcases List.mem_append.mp hc2 with hc3 | hc3
    · exact escapeStr_ascii s c hc3
    · simp at hc3; subst hc3; decide
  | .arr [] => by intro c hc; simp [dumpJ] at hc; rcases hc with rfl | rfl <;> decide
  | .arr (v :: vs) => by
    intro c hc
    rw [show dumpJ (.arr (v :: vs)) = '[' :: (dumpJ v ++ dumpArrTail vs) from by
      simp [dumpJ]] at hc
    rcases List.mem_cons.mp hc with rfl | hc2
    · decide
    rcases List.mem_append.mp hc2 with hc3 | hc3
    · exact dumpJ_ascii v c hc3
    · exact dumpArrTail_ascii vs c hc3
  | .obj [] => by intro c hc; simp [dumpJ] at hc; rcases hc with rfl | rfl <;> decide
  | .obj (kv :: kvs) => by
    intro c hc
    rw [show dumpJ (.obj (kv :: kvs)) = '{' :: (dumpEntry kv ++ dumpObjTail kvs) from by
      simp [dumpJ]] at hc
    rcases List.mem_cons.mp hc with rfl | hc2
    · decide
    rcases List.mem_append.mp hc2 with hc3 | hc3
    · exact dumpEntry_ascii kv c hc3
    · exact dumpObjTail_ascii kvs c hc3

theorem dumpEntry_ascii : ∀ kv : List Char × JValue, ∀ c ∈ dumpEntry kv, c.toNat < 128
  | (k, v) => by
    intro c hc
    rw [show dumpEntry (k, v) = '"' :: (escapeStr k ++ (['"', ':', ' '] ++ dumpJ v)) from by
      simp [dumpEntry]] at hc
    rcases List.mem_cons.mp hc with rfl | hc2
    · decide
    rcases List.mem_append.mp hc2 with hc3 | hc3
    · exact escapeStr_ascii k c hc3
    rcases List.mem_append.mp hc3 with hc4 | hc4
    · simp at hc4; rcases hc4 with rfl | rfl | rfl <;> decide
    · exact dumpJ_ascii v c hc4

theorem dumpArrTail_ascii : ∀ vs : List JValue, ∀ c ∈ dumpArrTail vs, c.toNat < 128
  | [] => by intro c hc; simp [dumpArrTail] at hc; subst hc; decide
  | v :: vs => by
    intro c hc
    rw [show dumpArrTail (v :: vs) = ',' :: ' ' :: (dumpJ v ++ dumpArrTail vs) from by
      simp [dumpArrTail]] at hc
    rcases List.mem_cons.mp hc with rfl | hc2
    · decide
    rcases List.mem_cons.mp hc2 with rfl | hc3
    · decide
    rcases List.mem_append.mp hc3 with hc4 | hc4
    · exact dumpJ_ascii v c hc4
    · exact dumpArrTail_ascii vs c hc4

theorem dumpObjTail_ascii : ∀ kvs : List (List Char × JValue), ∀ c ∈ dumpObjTail kvs,
    c.toNat < 128
  | [] => by intro c hc; simp [dumpObjTail] at hc; subst hc; decide
  | kv :: kvs => by
    intro c hc
    rw [show dumpObjTail (kv :: kvs) = ',' :: ' ' :: (dumpEntry kv ++ dumpObjTail kvs) from by
      simp [dumpObjTail]] at hc
    rcases List.mem_cons.mp hc with rfl | hc2
    · decide
    rcases List.mem_cons.mp hc2 with rfl | hc3
    · decide
    rcases List.mem_append.mp hc3 with hc4 | hc4
    · exact dumpEntry_ascii kv c hc4
    · exact dumpObjTail_ascii kvs c hc4
end

theorem utf8DecodeF_ascii : ∀ (g : Nat) (cs : List Char), cs.length < g →
    (∀ c ∈ cs, c.toNat < 128) → utf8DecodeF g (cs.map Char.toNat) = some cs := by
  intro g
  induction g with
  | zero => intro cs h; omega
  | succ g ih =>
    intro cs hlen hascii
    match cs with
    | [] => rfl
    | c :: cs =>
      have hc : c.toNat < 128 := hascii c (by simp)
      have ih' := ih cs (by simp at hlen; omega) (fun x hx => hascii x (by simp [hx]))
      show utf8DecodeF (g + 1) (c.toNat :: cs.map Char.toNat) = _
      rw [utf8DecodeF.eq_3, if_pos hc, ih']
      simp [Char.ofNat_toNat]


theorem utf8Decode_ascii (cs : List Char) (h : ∀ c ∈ cs, c.toNat < 128) :
    utf8Decode (cs.map Char.toNat) = some cs := by
  unfold utf8Decode
  rw [List.length_map]
  exact utf8DecodeF_ascii (cs.length + 1) cs (by omega) h

/-! ## Lemmas: the parser inverts the printer -/

theorem parseJ_int (g : Nat) (n : Int) (rest : List Char)
    (hrest : headNotDigit rest = true) :
    parseJ (g + 1) (intToDec n ++ rest) = some (.int n, rest) := by
  by_cases h : n < 0
  · rw [show intToDec n = '-' :: natToDec n.natAbs from by simp [intToDec, h]]
    rw [List.cons_append, parseJ.eq_2, skipWs_not_ws (by decide)]
    simp only [reduceIte]
    rw [show ('-' :: (natToDec n.natAbs ++ rest)) = intToDec n ++ rest from by
      simp [intToDec, h]]
    exact parseNum_intToDec n rest hrest
  · rw [show intToDec n = natToDec n.toNat from by simp [intToDec, h]]
    obtain ⟨d, tl, hd, hlt⟩ := natToDec_head n.toNat
    have facts := digitChar_parse_facts ⟨d, hlt⟩
    rw [hd, List.cons_append, parseJ.eq_2, skipWs_not_ws facts.1]
    simp only [if_neg facts.2.1, if_neg facts.2.2.1, if_neg facts.2.2.2.1,
      if_neg facts.2.2.2.2.1, if_neg facts.2.2.2.2.2.1, if_neg facts.2.2.2.2.2.2.1,
      if_pos (Or.inr facts.2.2.2.2.2.2.2.2.2.2)]
    rw [← List.cons_append, ← hd,
      show natToDec n.toNat ++ rest = intToDec n ++ rest from by simp [intToDec, h]]
    exact parseNum_intToDec n rest hrest

theorem parseJ_str (g : Nat) (s : List Char) (rest : List Char) :
    parseJ (g + 1) (dumpJ (.str s) ++ rest) = some (.str s, rest) := by
  rw [show dumpJ (.str s) ++ rest = '"' :: (escapeStr s ++ '"' :: rest) from by
    simp [dumpJ]]
  rw [parseJ.eq_2, skipWs_not_ws (by decide)]
  simp only [reduceIte]
  rw [parseStr_escape s rest]
  simp

theorem parse_dump : ∀ f : Nat,
    (∀ (v : JValue) (rest : List Char), needJ v ≤ f → headNotDigit rest = true →
      parseJ f (dumpJ v ++ rest) = some (v, rest)) ∧
    (∀ (vs : List JValue) (rest : List Char), needT vs ≤ f → headNotDigit rest = true →
      parseArrTail f (dumpArrTail vs ++ rest) = some (vs, rest)) ∧
    (∀ (kvs : List (List Char × JValue)) (rest : List Char), needO kvs ≤ f →
      headNotDigit rest = true → parseObjTail f (dumpObjTail kvs ++ rest) = some (kvs, rest)) := by
  intro f
  induction f using Nat.strong_induction_on with
  | _ f ih =>
    match f with
    | 0 =>
      refine ⟨fun v rest hf _ => absurd hf ?_, fun vs rest hf _ => absurd hf ?_,
        fun kvs rest hf _ => absurd hf ?_⟩
      · have := needJ_pos v; omega
      · have := needT_pos vs; omega
      · have := needO_pos kvs; omega
    | g + 1 =>
      have ihg := ih g (by omega)
      refine ⟨?_, ?_, ?_⟩
      · intro v rest hf hrest
        cases v with
        | null =>
          rw [show dumpJ .null ++ rest = 'n' :: 'u' :: 'l' :: 'l' :: rest from by simp [dumpJ]]
          rw [parseJ.eq_2, skipWs_not_ws (by decide)]
          simp
        | bool b =>
          cases b
          · rw [show dumpJ (.bool false) ++ rest = 'f' :: 'a' :: 'l' :: 's' :: 'e' :: rest from by
              simp [dumpJ]]
            rw [parseJ.eq_2, skipWs_not_ws (by decide)]
            simp
          · rw [show dumpJ (.bool true) ++ rest = 't' :: 'r' :: 'u' :: 'e' :: rest from by
              simp [dumpJ]]
            rw [parseJ.eq_2, skipWs_not_ws (by decide)]
            simp
        | int n => exact parseJ_int g n rest hrest
        | str s => exact parseJ_str g s rest
        | arr xs =>
          cases xs with
          | nil =>
            rw [show dumpJ (.arr []) ++ rest = '[' :: ']' :: rest from by simp [dumpJ]]
            rw [parseJ.eq_2, skipWs_not_ws (by decide)]
            simp [skipWs_not_ws (show isJWs ']' = false from by decide)]
          | cons v vs =>
            have hfv : needJ v ≤ g := by
              have e : needJ (.arr (v :: vs)) = 1 + (1 + max (needJ v) (needT vs)) := by
                simp [needJ, needT]
              omega
            have hft : needT vs ≤ g := by
              have e : needJ (.arr (v :: vs)) = 1 + (1 + max (needJ v) (needT vs)) := by
                simp [needJ, needT]
              omega
            have hiA := ihg.1 v (dumpArrTail vs ++ rest) hfv (headNotDigit_dumpArrTail vs rest)
            have hiB := ihg.2.1 vs rest hft hrest
            obtain ⟨c, tl, he, hws, hne⟩ := dumpJ_shape v
            rw [show dumpJ (.arr (v :: vs)) ++ rest =
              '[' :: (dumpJ v ++ (dumpArrTail vs ++ rest)) from by simp [dumpJ]]
            rw [parseJ.eq_2, skipWs_not_ws (by decide)]
            rw [he, List.cons_append] at hiA ⊢
            simp [skipWs_not_ws hws, hne, hiA, hiB]
        | obj kvs =>
          cases kvs with
          | nil =>
            rw [show dumpJ (.obj []) ++ rest = '{' :: '}' :: rest from by simp [dumpJ]]
            rw [parseJ.eq_2, skipWs_not_ws (by decide)]
            simp [skipWs_not_ws (show isJWs '}' = false from by decide)]
          | cons kv kvs =>
            obtain ⟨k0, v⟩ := kv
            have hfv : needJ v ≤ g := by
              have e : needJ (.obj ((k0, v) :: kvs)) = 1 + (1 + max (needJ v) (needO kvs)) := by
                simp [needJ, needO]
              omega
            have hfo : needO kvs ≤ g := by
              have e : needJ (.obj ((k0, v) :: kvs)) = 1 + (1 + max (needJ v) (needO kvs)) := by
                simp [needJ, needO]
              omega
            have hgpos : 0 < g := by
              have := needJ_pos v; omega
            have hiA := ihg.1 v (dumpObjTail kvs ++ rest) hfv (headNotDigit_dumpObjTail kvs rest)
            have hiC := ihg.2.2 kvs rest hfo hrest
            rw [show dumpJ (.obj ((k0, v) :: kvs)) ++ rest =
              '{' :: ('"' :: (escapeStr k0 ++
                ('"' :: (':' :: ' ' :: (dumpJ v ++ (dumpObjTail kvs ++ rest)))))) from by
              simp [dumpJ, dumpEntry]]
            rw [parseJ.eq_2, skipWs_not_ws (by decide)]
            simp [skipWs_not_ws (show isJWs '"' = false from by decide),
              skipWs_not_ws (show isJWs ':' = false from by decide),
              parseStr_escape k0 (':' :: ' ' :: (dumpJ v ++ (dumpObjTail kvs ++ rest))),
              parseJ_ws hgpos (show isJWs ' ' = true from by decide), hiA, hiC]
      · intro vs rest hf hrest
        cases vs with
        | nil =>
          rw [show dumpArrTail [] ++ rest = ']' :: rest from by simp [dumpArrTail]]
          rw [parseArrTail.eq_2, skipWs_not_ws (by decide)]
          simp
        | cons v vs =>
          have hfv : needJ v ≤ g := by
            have e : needT (v :: vs) = 1 + max (needJ v) (needT vs) := by simp [needT]
            omega
          have hft : needT vs ≤ g := by
            have e : needT (v :: vs) = 1 + max (needJ v) (needT vs) := by simp [needT]
            omega
          have hgpos : 0 < g := by have := needJ_pos v; omega
          have hiA := ihg.1 v (dumpArrTail vs ++ rest) hfv (headNotDigit_dumpArrTail vs rest)
          have hiB := ihg.2.1 vs rest hft hrest
          rw [show dumpArrTail (v :: vs) ++ rest =
            ',' :: ' ' :: (dumpJ v ++ (dumpArrTail vs ++ rest)) from by simp [dumpArrTail]]
          rw [parseArrTail.eq_2, skipWs_not_ws (by decide)]
          simp [parseJ_ws hgpos (show isJWs ' ' = true from by decide), hiA, hiB]
      · intro kvs rest hf hrest
        cases kvs with
        | nil =>
          rw [show dumpObjTail [] ++ rest = '}' :: rest from by simp [dumpObjTail]]
          rw [parseObjTail.eq_2, skipWs_not_ws (by decide)]
          simp
        | cons kv kvs =>
          obtain ⟨k0, v⟩ := kv
          have hfv : needJ v ≤ g := by
            have e : needO ((k0, v) :: kvs) = 1 + max (needJ v) (needO kvs) := by simp [needO]
            omega
          have hfo : needO kvs ≤ g := by
            have e : needO ((k0, v) :: kvs) = 1 + max (needJ v) (needO kvs) := by simp [needO]
            omega
          have hgpos : 0 < g := by have := needJ_pos v; omega
          have hiA := ihg.1 v (dumpObjTail kvs ++ rest) hfv (headNotDigit_dumpObjTail kvs rest)
          have hiC := ihg.2.2 kvs rest hfo hrest
          rw [show dumpObjTail ((k0, v) :: kvs) ++ rest =
            ',' :: ' ' :: ('"' :: (escapeStr k0 ++
              ('"' :: (':' :: ' ' :: (dumpJ v ++ (dumpObjTail kvs ++ rest)))))) from by
            simp [dumpObjTail, dumpEntry]]
          rw [parseObjTail.eq_2, skipWs_not_ws (by decide)]
          simp [skipWs_not_ws (show isJWs '"' = false from by decide),
            skipWs_not_ws (show isJWs ':' = false from by decide),
            skipWs, isJWs,
            parseStr_escape k0 (':' :: ' ' :: (dumpJ v ++ (dumpObjTail kvs ++ rest))),
            parseJ_ws hgpos (show isJWs ' ' = true from by decide), hiA, hiC]

theorem jsonLoads_dumpJ (v : JValue) : jsonLoads (dumpJ v) = some v := by
  unfold jsonLoads
  have hn := needJ_le v
  have h := (parse_dump ((dumpJ v).length + 1)).1 v [] (by omega) rfl
  rw [List.append_nil] at h
  rw [h]
  rfl

theorem json_load_dump (M : List (List Char × JValue)) :
    json_load_bytes (json_dump_bytes M) = some (.obj M) := by
  unfold json_load_bytes json_dump_bytes
  rw [utf8Decode_ascii (dumpJ (.obj M)) (dumpJ_ascii (.obj M))]
  exact jsonLoads_dumpJ (.obj M)

theorem json_dump_bytes_lt (M : List (List Char × JValue)) :
    ∀ x ∈ json_dump_bytes M, x < 256 := by
  intro x hx
  unfold json_dump_bytes at hx
  obtain ⟨c, hc, rfl⟩ := List.mem_map.mp hx
  have := dumpJ_ascii (.obj M) c hc
  omega

/-- The pipeline round-trip, for any sign/unsign pair where unsign inverts
sign and signing preserves byte range. -/
theorem pipeline_roundtrip (B : CookieBackend)
    (hsu : ∀ b, B.unsign (B.sign b) = some b)
    (hsb : ∀ b, (∀ x ∈ b, x < 256) → ∀ x ∈ B.sign b, x < 256)
    (M : List (List Char × JValue)) :
    load_content B (save_content B M) = .obj M := by
  unfold load_content save_content
  simp [b64_roundtrip (B.sign (json_dump_bytes M)) (hsb _ (json_dump_bytes_lt M)),
    hsu (json_dump_bytes M), json_load_dump M]

/-! ## Lemmas: the timestamped signer -/

theorem natToDec_range (n : Nat) : ∀ c ∈ natToDec n, 48 ≤ c.toNat ∧ c.toNat ≤ 57 := by
  intro c hc
  induction n using Nat.strong_induction_on with
  | _ n ih =>
    by_cases hn : n < 10
    · rw [natToDec_small hn] at hc
      simp at hc
      subst hc
      have := digitChar_toNat hn
      omega
    · rw [natToDec_step (by omega)] at hc
      rcases List.mem_append.mp hc with hc2 | hc2
      · exact ih (n / 10) (by omega) hc2
      · simp at hc2
        subst hc2
        have := digitChar_toNat (show n % 10 < 10 by omega)
        omega

theorem tsBytes_range (t : Nat) : ∀ x ∈ tsBytes t, 48 ≤ x ∧ x ≤ 57 := by
  intro x hx
  obtain ⟨c, hc, rfl⟩ := List.mem_map.mp hx
  exact natToDec_range t c hc

theorem sep_not_mem_tsBytes (t : Nat) : sepByte ∉ tsBytes t := by
  intro h
  have := tsBytes_range t sepByte h
  simp [sepByte] at this

theorem tsBytes_ne_nil (t : Nat) : tsBytes t ≠ [] := by
  unfold tsBytes
  simp [natToDec_ne_nil t]

theorem tsVal_tsBytes (t : Nat) : tsVal (tsBytes t) = some t := by
  unfold tsVal
  rw [if_pos]
  · congr 1
    unfold tsBytes
    rw [List.foldl_map]
    exact digitsVal_natToDec t
  · refine ⟨tsBytes_ne_nil t, ?_⟩
    rw [List.all_eq_true]
    intro x hx
    have := tsBytes_range t x hx
    simp
    omega

theorem splitLastSep_append (xs ys : List Nat) (hys : sepByte ∉ ys) :
    splitLastSep (xs ++ sepByte :: ys) = some (xs, ys) := by
  have hall : ∀ b ∈ ys.reverse, (b != sepByte) = true := by
    intro b hb
    rw [List.mem_reverse] at hb
    simp only [bne_iff_ne, ne_eq]
    intro hEq
    exact hys (hEq ▸ hb)
  have hstop : ∀ (c : Nat) (rs : List Nat), sepByte :: xs.reverse = c :: rs →
      (c != sepByte) = false := by
    intro c rs hEq
    cases hEq
    simp
  have hspan := takeWhile_all_append ys.reverse (sepByte :: xs.reverse) hall hstop
  unfold splitLastSep
  rw [show (xs ++ sepByte :: ys).reverse = ys.reverse ++ sepByte :: xs.reverse from by simp]
  simp only [List.span_eq_take_drop, hspan.1, hspan.2]
  simp

theorem tsign_assoc (mac : List Nat → List Nat) (ts : Nat) (b : List Nat) :
    tsign mac ts b =
      (b ++ sepByte :: tsBytes ts) ++ sepByte :: mac (b ++ sepByte :: tsBytes ts) := by
  unfold tsign
  simp

theorem tunsign_tsign (mac : List Nat → List Nat) (hm : ∀ bs, sepByte ∉ mac bs)
    (now ts : Nat) (mA : Option Nat)
    (hfresh : match mA with | none => True | some a => now - ts ≤ a) (b : List Nat) :
    tunsign mac now mA (tsign mac ts b) = some b := by
  unfold tunsign
  rw [tsign_assoc]
  simp only [splitLastSep_append _ _ (hm _)]
  simp only [splitLastSep_append _ _ (sep_not_mem_tsBytes ts), tsVal_tsBytes]
  match mA, hfresh with
  | none, _ => simp
  | some a, hfresh => simp [show ¬ (now - ts > a) from by omega]

theorem tunsign_tsign_expired (mac : List Nat → List Nat) (hm : ∀ bs, sepByte ∉ mac bs)
    (now ts a : Nat) (hexp : now - ts > a) (b : List Nat) :
    tunsign mac now (some a) (tsign mac ts b) = none := by
  unfold tunsign
  rw [tsign_assoc]
  simp only [splitLastSep_append _ _ (hm _)]
  simp only [splitLastSep_append _ _ (sep_not_mem_tsBytes ts), tsVal_tsBytes]
  simp [hexp]

theorem tunsign_bad_sig (mac : List Nat → List Nat) (now : Nat) (mA : Option Nat)
    (p s : List Nat) (hs : sepByte ∉ s) (hne : s ≠ mac p) :
    tunsign mac now mA (p ++ sepByte :: s) = none := by
  unfold tunsign
  simp only [splitLastSep_append _ _ hs]
  simp [hne]

theorem tsign_bytes (mac : List Nat → List Nat)
    (hmb : ∀ bs x, x ∈ mac bs → x < 256) (ts : Nat) (b : List Nat)
    (hb : ∀ x ∈ b, x < 256) : ∀ x ∈ tsign mac ts b, x < 256 := by
  intro x hx
  unfold tsign at hx
  rcases List.mem_append.mp hx with hx2 | hx2
  · rcases List.mem_append.mp hx2 with hx3 | hx3
    · exact hb x hx3
    rcases List.mem_cons.mp hx3 with rfl | hx4
    · simp [sepByte]
    · have := tsBytes_range ts x hx4
      omega
  · rcases List.mem_cons.mp hx2 with rfl | hx3
    · simp [sepByte]
    · exact hmb _ x hx3

/-! ## Lemmas: the bound-session state machine -/

theorem countLoad_append {α : Type} (a b : List (BCall α)) :
    countLoad (a ++ b) = countLoad a + countLoad b := by
  induction a with
  | nil => simp [countLoad]
  | cons x xs ih => cases x <;> simp [countLoad, ih] <;> omega

theorem joinOrOpen_post {α : Type} (B : SBackend α) (s : BState α)
    (h : s.session.isSome → s.sid.isSome) :
    (joinOrOpen B s).2.1.session.isSome ∧ (joinOrOpen B s).2.1.sid.isSome := by
  obtain ⟨sid0, acc, mod, sess0⟩ := s
  cases sess0 with
  | some m => simpa [joinOrOpen] using h (by simp)
  | none =>
    cases sid0 with
    | some sid => cases hl : B.loadSession sid <;> simp [joinOrOpen, hl]
    | none => simp [joinOrOpen]

theorem joinOrOpen_noload {α : Type} (B : SBackend α) (s : BState α)
    (h : s.sid.isSome = s.session.isSome) :
    countLoad (joinOrOpen B s).2.2 = 0 ∧
    (joinOrOpen B s).2.1.session.isSome ∧ (joinOrOpen B s).2.1.sid.isSome := by
  unfold joinOrOpen
  cases hs : s.session with
  | some m =>
    have hsid : s.sid.isSome := by rw [h, hs]; rfl
    simpa [hs, countLoad] using hsid
  | none =>
    have hsid : s.sid = none := by
      cases hsid : s.sid
      · rfl
      · rw [hsid, hs] at h; simp at h
    simp [hs, hsid, countLoad]

theorem runOp_inv1 {α : Type} (B : SBackend α) (op : SOp α) (s : BState α)
    (h : s.session.isSome → s.sid.isSome) :
    ((runOp B op s).1.session.isSome → (runOp B op s).1.sid.isSome) := by
  obtain ⟨sid0, acc, mod, sess0⟩ := s
  cases op with
  | get k =>
    cases sid0 with
    | none => simp_all [runOp, getItem]
    | some sid =>
      cases sess0 with
      | some m => simp [runOp, getItem, joinOrOpen]
      | none => cases hl : B.loadSession sid <;> simp [runOp, getItem, joinOrOpen, hl]
  | set k v =>
    cases sid0 with
    | none =>
      cases sess0 with
      | some m => simp_all
      | none => simp [runOp, setItem, joinOrOpen]
    | some sid =>
      cases sess0 with
      | some m => simp [runOp, setItem, joinOrOpen]
      | none => cases hl : B.loadSession sid <;> simp [runOp, setItem, joinOrOpen, hl]
  | del k =>
    cases sid0 with
    | none => simp_all [runOp, delItem]
    | some sid =>
      cases sess0 with
      | some m =>
        cases halg : alGet m k <;> simp [runOp, delItem, joinOrOpen, halg]
      | none =>
        cases hl : B.loadSession sid with
        | none =>
          cases halg : alGet ([] : List (String × α)) k <;>
            simp [runOp, delItem, joinOrOpen, hl, halg]
        | some m =>
          cases halg : alGet m k <;> simp [runOp, delItem, joinOrOpen, hl, halg]
  | len =>
    cases sid0 with
    | none => simp_all [runOp, lenOp]
    | some sid =>
      cases sess0 with
      | some m => simp [runOp, lenOp, joinOrOpen]
      | none => cases hl : B.loadSession sid <;> simp [runOp, lenOp, joinOrOpen, hl]
  | iter =>
    cases sid0 with
    | none => simp_all [runOp, iterOp]
    | some sid =>
      cases sess0 with
      | some m => simp [runOp, iterOp, joinOrOpen]
      | none => cases hl : B.loadSession sid <;> simp [runOp, iterOp, joinOrOpen, hl]
  | clear =>
    cases sid0 with
    | none =>
      cases sess0 with
      | some m => simp_all
      | none => simp [runOp, clearOp]
    | some sid =>
      cases sess0 with
      | some m => simp [runOp, clearOp]
      | none => simp [runOp, clearOp]

theorem runOps_inv1 {α : Type} (B : SBackend α) (ops : List (SOp α)) (s : BState α)
    (h : s.session.isSome → s.sid.isSome) :
    ((runOps B ops s).1.session.isSome → (runOps B ops s).1.sid.isSome) := by
  induction ops generalizing s with
  | nil => exact h
  | cons op ops ih =>
    show ((runOps B ops (runOp B op s).1).1.session.isSome → _)
    exact ih (runOp B op s).1 (runOp_inv1 B op s h)

theorem runOp_noload {α : Type} (B : SBackend α) (op : SOp α) (s : BState α)
    (h : s.sid.isSome = s.session.isSome) :
    countLoad (runOp B op s).2 = 0 ∧
    ((runOp B op s).1.sid.isSome = (runOp B op s).1.session.isSome) := by
  obtain ⟨sid0, acc, mod, sess0⟩ := s
  cases sid0 with
  | none =>
    cases sess0 with
    | some m => simp at h
    | none =>
      cases op with
      | get k => simp [runOp, getItem, countLoad]
      | set k v => simp [runOp, setItem, joinOrOpen, countLoad]
      | del k => simp [runOp, delItem, countLoad]
      | len => simp [runOp, lenOp, countLoad]
      | iter => simp [runOp, iterOp, countLoad]
      | clear => simp [runOp, clearOp, countLoad]
  | some sid =>
    cases sess0 with
    | none => simp at h
    | some m =>
      cases op with
      | get k => simp [runOp, getItem, joinOrOpen, countLoad]
      | set k v => simp [runOp, setItem, joinOrOpen, countLoad]
      | del k =>
        cases halg : alGet m k <;> simp [runOp, delItem, joinOrOpen, halg, countLoad]
      | len => simp [runOp, lenOp, joinOrOpen, countLoad]
      | iter => simp [runOp, iterOp, joinOrOpen, countLoad]
      | clear => simp [runOp, clearOp, countLoad]

theorem runOps_noload {α : Type} (B : SBackend α) (ops : List (SOp α)) (s : BState α)
    (h : s.sid.isSome = s.session.isSome) :
    countLoad (runOps B ops s).2 = 0 ∧
    ((runOps B ops s).1.sid.isSome = (runOps B ops s).1.session.isSome) := by
  induction ops generalizing s with
  | nil => exact ⟨rfl, h⟩
  | cons op ops ih =>
    have hstep := runOp_noload B op s h
    have hrest := ih (runOp B op s).1 hstep.2
    show countLoad ((runOp B op s).2 ++ (runOps B ops (runOp B op s).1).2) = 0 ∧ _
    rw [countLoad_append]
    exact ⟨by omega, hrest.2⟩

/-! ## Lemmas: cookie session writes -/

theorem cookieSets_cleared : ∀ (ks : List (List Char × JValue)) (s : CState),
    s.cleared = false → (cookieSets s ks).cleared = false
  | [], s, h => h
  | (k, v) :: rest, s, _ => cookieSets_cleared rest (cookieSet s k v) rfl

theorem cookieSets_cleared_of_ne_nil (ks : List (List Char × JValue)) (s : CState)
    (h : ks ≠ []) : (cookieSets s ks).cleared = false := by
  match ks, h with
  | (k, v) :: rest, _ =>
    exact cookieSets_cleared rest (cookieSet s k v) rfl

theorem cookieSets_content : ∀ (ks : List (List Char × JValue)) (s : CState),
    (cookieSets s ks).content = ks.foldl (fun m kv => cookieSet.jalSet m kv.1 kv.2) s.content
  | [], s => rfl
  | (k, v) :: rest, s => by
    show (cookieSets (cookieSet s k v) rest).content = _
    rw [cookieSets_content rest (cookieSet s k v)]
    rfl

/-! ## The claims -/

/-- C1: for every backend-backed bound session, the terminal `content`
read commits via exactly one `save_session(sid, content)` call and
returns the sid when the content mapping was materialized this request
(regardless of `modified`); keeps alive via `keep_alive(sid)` and returns
the sid when a sid exists but content was never materialized; and
returns no cookie with no backend call when no sid ever existed. -/
theorem c1_content_terminal {α : Type} (B : SBackend α) (sid0 : Option String)
    (ops : List (SOp α)) :
    (∀ m, (runOps B ops (initSession α sid0)).1.session = some m →
      ∃ sid, (runOps B ops (initSession α sid0)).1.sid = some sid ∧
        contentOp (runOps B ops (initSession α sid0)).1 =
          some (some sid, [BCall.save sid m])) ∧
    ((runOps B ops (initSession α sid0)).1.session = none →
      ∀ sid, (runOps B ops (initSession α sid0)).1.sid = some sid →
        contentOp (runOps B ops (initSession α sid0)).1 =
          some (some sid, [BCall.keep sid])) ∧
    ((runOps B ops (initSession α sid0)).1.session = none →
      (runOps B ops (initSession α sid0)).1.sid = none →
      contentOp (runOps B ops (initSession α sid0)).1 = some (none, [])) := by
  have hinv := runOps_inv1 B ops (initSession α sid0) (by simp [initSession])
  refine ⟨?_, ?_, ?_⟩
  · intro m hm
    have hsid := hinv (by simp [hm])
    cases hsid2 : (runOps B ops (initSession α sid0)).1.sid with
    | none => rw [hsid2] at hsid; simp at hsid
    | some sid => exact ⟨sid, rfl, by simp [contentOp, hm, hsid2]⟩
  · intro hm sid hsid
    simp [contentOp, hm, hsid]
  · intro hm hsid
    simp [contentOp, hm, hsid]

/-- Witness for C1: a fresh no-token session that performs one write
commits that write under the newly issued sid. -/
theorem c1_witness :
    contentOp (runOps (⟨fun _ => none, "n"⟩ : SBackend Nat) [SOp.set "a" 1]
      (initSession Nat none)).1 = some (some "n", [BCall.save "n" [("a", 1)]]) := by
  obtain ⟨sid, hsid, hc⟩ :=
    (c1_content_terminal (⟨fun _ => none, "n"⟩ : SBackend Nat) none [SOp.set "a" 1]).1
      [("a", 1)] rfl
  have he : (runOps (⟨fun _ => none, "n"⟩ : SBackend Nat) [SOp.set "a" 1]
      (initSession Nat none)).1.sid = some "n" := rfl
  rw [he] at hsid
  cases hsid
  exact hc

/-- C2 counterexample: a session with a valid sid on which only iteration
is performed materializes the content, so the request performs one
`load_session` and zero `keep_alive` calls — not one `keep_alive` and
zero loads as the claim states. -/
theorem c2_counterexample :
    countKeep ((iterOp (⟨fun s => if s = "sid0" then some [("k", (7 : Nat))] else none,
        "n0"⟩ : SBackend Nat) (initSession Nat (some "sid0"))).2.2 ++
      [BCall.save "sid0" [("k", 7)]]) = 0 ∧
    countLoad ((iterOp (⟨fun s => if s = "sid0" then some [("k", (7 : Nat))] else none,
        "n0"⟩ : SBackend Nat) (initSession Nat (some "sid0"))).2.2 ++
      [BCall.save "sid0" [("k", 7)]]) = 1 ∧
    contentOp (iterOp (⟨fun s => if s = "sid0" then some [("k", (7 : Nat))] else none,
        "n0"⟩ : SBackend Nat) (initSession Nat (some "sid0"))).2.1 =
      some (some "sid0", [BCall.save "sid0" [("k", 7)]]) ∧
    ¬ (countKeep ((iterOp (⟨fun s => if s = "sid0" then some [("k", (7 : Nat))] else none,
        "n0"⟩ : SBackend Nat) (initSession Nat (some "sid0"))).2.2 ++
      [BCall.save "sid0" [("k", 7)]]) = 1 ∧
      countLoad ((iterOp (⟨fun s => if s = "sid0" then some [("k", (7 : Nat))] else none,
        "n0"⟩ : SBackend Nat) (initSession Nat (some "sid0"))).2.2 ++
      [BCall.save "sid0" [("k", 7)]]) = 0) := by
  refine ⟨rfl, rfl, rfl, ?_⟩
  intro h
  exact absurd (rfl.trans h.1.symm) (by decide)

/-- C2 (amended): a bound session with a valid sid on which only
iteration is performed materializes the content at the iteration with
exactly one `load_session(sid)` call, yields the stored keys, and the
terminal `content` read then commits with one `save_session` call; no
`keep_alive` call occurs in the request. -/
theorem c2_iteration_materializes {α : Type} (B : SBackend α) (sid : String)
    (m : List (String × α)) (h : B.loadSession sid = some m) :
    (iterOp B (initSession α (some sid))).1 = m.map Prod.fst ∧
    (iterOp B (initSession α (some sid))).2.2 = [BCall.load sid] ∧
    contentOp (iterOp B (initSession α (some sid))).2.1 =
      some (some sid, [BCall.save sid m]) ∧
    countKeep ((iterOp B (initSession α (some sid))).2.2 ++ [BCall.save sid m]) = 0 ∧
    countLoad ((iterOp B (initSession α (some sid))).2.2 ++ [BCall.save sid m]) = 1 ∧
    countSave ((iterOp B (initSession α (some sid))).2.2 ++ [BCall.save sid m]) = 1 := by
  refine ⟨?_, ?_, ?_, ?_, ?_, ?_⟩ <;>
    simp [iterOp, joinOrOpen, initSession, contentOp, h, countKeep, countLoad, countSave]

/-- Witness for C2: the amended statement at a concrete backend. -/
theorem c2_witness :
    contentOp (iterOp (⟨fun s => if s = "sid0" then some [("k", (7 : Nat))] else none,
      "n0"⟩ : SBackend Nat) (initSession Nat (some "sid0"))).2.1 =
      some (some "sid0", [BCall.save "sid0" [("k", 7)]]) :=
  (c2_iteration_materializes _ "sid0" [("k", 7)] rfl).2.2.1

/-- C3: the source's `__len__` computes the materialized mapping's length
and then discards it, returning 0 unconditionally; at a session whose
store holds a one-entry mapping, `len` returns 0 although the
materialized mapping has one entry. -/
theorem c3_len_always_zero :
    (∀ (B : SBackend Nat) (s : BState Nat), (lenOp B s).1 = 0) ∧
    (lenOp (⟨fun s => if s = "s" then some [("a", (0 : Nat))] else none, "n"⟩ :
        SBackend Nat) (initSession Nat (some "s"))).1 = 0 ∧
    (lenOp (⟨fun s => if s = "s" then some [("a", (0 : Nat))] else none, "n"⟩ :
        SBackend Nat) (initSession Nat (some "s"))).2.1.session = some [("a", 0)] ∧
    ([("a", (0 : Nat))] : List (String × Nat)).length = 1 := by
  refine ⟨?_, rfl, rfl, rfl⟩
  intro B s
  obtain ⟨sid0, acc, mod, sess0⟩ := s
  cases sid0 <;> simp [lenOp]

/-- C4 counterexample: a self-contained cookie session constructed with
no token and never touched has `accessed = false`, but its `content` is
the token of the empty mapping, not None. -/
theorem c4_counterexample :
    (cookieInit plainCookieBackend none).accessed = false ∧
    (cookieContent plainCookieBackend (cookieInit plainCookieBackend none)).1 =
      some ['e', '3', '0', '='] ∧
    (cookieContent plainCookieBackend (cookieInit plainCookieBackend none)).1 ≠ none := by
  refine ⟨rfl, rfl, by decide⟩

/-- C4 (amended): a backend session constructed with no prior token never
triggers a `load_session` call under any operation sequence; with no
operation at all it reports `accessed = false` and `content` is no
cookie with no backend call (no identifier generated); the self-contained
cookie session likewise starts with `accessed = false` but its `content`
is the token of the empty mapping. -/
theorem c4_lazy_initialization :
    (∀ (α : Type) (B : SBackend α) (ops : List (SOp α)),
      countLoad (runOps B ops (initSession α none)).2 = 0) ∧
    (∀ (α : Type), accessedProp (initSession α none) = false ∧
      contentOp (initSession α none) = some (none, []) ∧
      (initSession α none).sid = none) ∧
    (∀ (sid0 : Option String) (α : Type), accessedProp (initSession α sid0) = false) ∧
    (∀ CB : CookieBackend, (cookieInit CB none).accessed = false ∧
      (cookieContent CB (cookieInit CB none)).1 = some (save_content CB [])) := by
  refine ⟨?_, fun α => ⟨rfl, rfl, rfl⟩, fun sid0 α => rfl, fun CB => ⟨rfl, rfl⟩⟩
  intro α B ops
  exact (runOps_noload B ops (initSession α none) (by simp [initSession])).1

/-- C5: for the self-contained cookie pipeline with the default JSON
serializer pair and identity sign/unsign, `load_content` inverts
`save_content` on every mapping with string keys and (non-float)
JSON-representable values. -/
theorem c5_cookie_roundtrip (M : List (List Char × JValue)) :
    load_content plainCookieBackend (save_content plainCookieBackend M) = JValue.obj M :=
  pipeline_roundtrip plainCookieBackend (fun _ => rfl) (fun _ h => h) M

/-- C6 counterexample: for the signed-cookie backend at a concrete keyed
mac, altering one byte of a validly signed token (the discarded padding
bits of the final base64 group) yields a different token that
`load_content` accepts, returning the original non-empty mapping rather
than the empty one. -/
theorem c6_counterexample :
    save_content (signedCookieBackend (fun bs => bs.map (fun b => 65 + b % 16)) 10 11
        (some 100)) [(['a'], JValue.null)] =
      "eyJhIjogbnVsbH0uMTAuTENCQ0tBT0ZNTU5PQkE=".toList ∧
    ("eyJhIjogbnVsbH0uMTAuTENCQ0tBT0ZNTU5PQkE=".toList).set 38 'F' =
      "eyJhIjogbnVsbH0uMTAuTENCQ0tBT0ZNTU5PQkF=".toList ∧
    "eyJhIjogbnVsbH0uMTAuTENCQ0tBT0ZNTU5PQkF=".toList ≠
      "eyJhIjogbnVsbH0uMTAuTENCQ0tBT0ZNTU5PQkE=".toList ∧
    load_content (signedCookieBackend (fun bs => bs.map (fun b => 65 + b % 16)) 10 11
        (some 100)) "eyJhIjogbnVsbH0uMTAuTENCQ0tBT0ZNTU5PQkF=".toList =
      JValue.obj [(['a'], JValue.null)] ∧
    JValue.obj [(['a'], JValue.null)] ≠ JValue.obj [] := by
  refine ⟨rfl, by decide, by decide, rfl, by simp⟩

/-- C6 (amended): for the signed-cookie backend, `load_content` is total
(no exception escapes) and fails open to the empty mapping when the
base64 decoding fails, when the signature does not match, or when the
unsigned payload is not valid JSON; and any token whose base64 decoding
coincides with that of a validly signed fresh token loads to the signed
mapping — tamper rejection holds only up to base64-decode equivalence,
not for every byte change. -/
theorem c6_tamper (mac : List Nat → List Nat) (hm : ∀ bs, sepByte ∉ mac bs)
    (hmb : ∀ bs x, x ∈ mac bs → x < 256) (ts now : Nat) (mA : Option Nat)
    (hfresh : match mA with | none => True | some a => now - ts ≤ a) :
    (∀ t, urlsafe_b64decode t = none →
      load_content (signedCookieBackend mac ts now mA) t = JValue.obj []) ∧
    (∀ t p s, urlsafe_b64decode t = some (p ++ sepByte :: s) → sepByte ∉ s →
      s ≠ mac p →
      load_content (signedCookieBackend mac ts now mA) t = JValue.obj []) ∧
    (∀ t d u, urlsafe_b64decode t = some d → tunsign mac now mA d = some u →
      json_load_bytes u = none →
      load_content (signedCookieBackend mac ts now mA) t = JValue.obj []) ∧
    (∀ (M : List (List Char × JValue)) (t : List Char),
      urlsafe_b64decode t =
        urlsafe_b64decode (save_content (signedCookieBackend mac ts now mA) M) →
      load_content (signedCookieBackend mac ts now mA) t = JValue.obj M) := by
  refine ⟨?_, ?_, ?_, ?_⟩
  · intro t ht
    simp [load_content, ht]
  · intro t p s ht hs hne
    simp [load_content, ht, signedCookieBackend, tunsign_bad_sig mac now mA p s hs hne]
  · intro t d u ht hu hj
    simp [load_content, ht, signedCookieBackend, hu, hj]
  · intro M t ht
    have hsign : (signedCookieBackend mac ts now mA).sign = tsign mac ts := rfl
    unfold load_content
    rw [ht]
    unfold save_content
    rw [hsign, b64_roundtrip _ (tsign_bytes mac hmb ts _ (json_dump_bytes_lt M))]
    show (match tunsign mac now mA (tsign mac ts (json_dump_bytes M)) with
      | none => JValue.obj []
      | some unsigned =>
        match json_load_bytes unsigned with
        | none => JValue.obj []
        | some v => v) = JValue.obj M
    rw [tunsign_tsign mac hm now ts mA hfresh]
    simp [json_load_dump M]

/-- Witness for C6: the amended fail-open clause at a concrete mac and a
token that is not valid base64. -/
theorem c6_witness :
    load_content (signedCookieBackend (fun _ => [65]) 0 0 none) ['A'] =
      JValue.obj [] :=
  (c6_tamper (fun _ => [65]) (fun bs => by show sepByte ∉ [65]; decide)
    (fun bs x hx => by simp at hx; omega) 0 0 none trivial).1 ['A'] rfl

/-- C7: with the timestamped signed-cookie variant, a token signed at
`ts` is rejected on load (yielding the empty mapping) whenever
`now − ts > max_age` for finite `max_age`; with `max_age = none` no
expiry rejection occurs and the token round-trips at any later time. -/
theorem c7_expiry (mac : List Nat → List Nat) (hm : ∀ bs, sepByte ∉ mac bs)
    (hmb : ∀ bs x, x ∈ mac bs → x < 256) (ts now a : Nat) (hexp : now - ts > a)
    (M : List (List Char × JValue)) :
    load_content (signedCookieBackend mac ts now (some a))
      (save_content (signedCookieBackend mac ts now (some a)) M) = JValue.obj [] ∧
    (∀ now2, load_content (signedCookieBackend mac ts now2 none)
      (save_content (signedCookieBackend mac ts now2 none) M) = JValue.obj M) := by
  constructor
  · have hsign : (signedCookieBackend mac ts now (some a)).sign = tsign mac ts := rfl
    unfold load_content save_content
    rw [hsign, b64_roundtrip _ (tsign_bytes mac hmb ts _ (json_dump_bytes_lt M))]
    show (match tunsign mac now (some a) (tsign mac ts (json_dump_bytes M)) with
      | none => JValue.obj []
      | some unsigned =>
        match json_load_bytes unsigned with
        | none => JValue.obj []
        | some v => v) = JValue.obj []
    rw [tunsign_tsign_expired mac hm now ts a hexp]
  · intro now2
    exact pipeline_roundtrip (signedCookieBackend mac ts now2 none)
      (fun b => tunsign_tsign mac hm now2 ts none trivial b)
      (fun b hb => tsign_bytes mac hmb ts b hb) M

/-- Witness for C7: max_age one second, a token signed two seconds ago is
rejected. -/
theorem c7_witness :
    load_content (signedCookieBackend (fun _ => [65]) 0 2 (some 1))
      (save_content (signedCookieBackend (fun _ => [65]) 0 2 (some 1))
        [(['a'], JValue.null)]) = JValue.obj [] :=
  (c7_expiry (fun _ => [65]) (fun bs => by show sepByte ∉ [65]; decide)
    (fun bs x hx => by simp at hx; omega) 0 2 1 (by decide)
    [(['a'], JValue.null)]).1

/-- C8: on every bound-session state, running join-or-create twice in
succession returns the identical mapping both times, the second join
performs no backend call at all, and the two joins make at most one
`load_session` call in total. -/
theorem c8_idempotent_join {α : Type} (B : SBackend α) (s : BState α) :
    (joinOrOpen B (joinOrOpen B s).2.1).1 = (joinOrOpen B s).1 ∧
    (joinOrOpen B (joinOrOpen B s).2.1).2.2 = [] ∧
    countLoad ((joinOrOpen B s).2.2 ++ (joinOrOpen B (joinOrOpen B s).2.1).2.2) ≤ 1 := by
  obtain ⟨sid0, acc, mod, sess0⟩ := s
  cases sess0 with
  | some m => simp [joinOrOpen, countLoad]
  | none =>
    cases sid0 with
    | some sid =>
      cases hl : B.loadSession sid <;> simp [joinOrOpen, hl, countLoad]
    | none => simp [joinOrOpen, countLoad]

/-- C9: for every self-contained cookie session over a backend whose
unsign inverts sign, `clear()` with no subsequent write makes the
`content` property return no cookie; `clear()` followed by at least one
write makes `content` return a token decoding to exactly the mapping
built from the post-clear writes. -/
theorem c9_clear (B : CookieBackend) (hsu : ∀ b, B.unsign (B.sign b) = some b)
    (hsb : ∀ b, (∀ x ∈ b, x < 256) → ∀ x ∈ B.sign b, x < 256)
    (s : CState) (ks : List (List Char × JValue)) :
    (cookieContent B (cookieClear s)).1 = none ∧
    (ks ≠ [] → ∃ t, (cookieContent B (cookieSets (cookieClear s) ks)).1 = some t ∧
      load_content B t =
        JValue.obj (ks.foldl (fun m kv => cookieSet.jalSet m kv.1 kv.2) [])) := by
  refine ⟨rfl, fun hne => ?_⟩
  have hcl := cookieSets_cleared_of_ne_nil ks (cookieClear s) hne
  refine ⟨save_content B (cookieSets (cookieClear s) ks).content, ?_, ?_⟩
  · simp [cookieContent, hcl, cookieIter]
  · have hco := cookieSets_content ks (cookieClear s)
    rw [hco]
    show load_content B (save_content B _) = _
    exact pipeline_roundtrip B hsu hsb _

/-- Witness for C9: both clauses at the plain cookie backend with one
post-clear write. -/
theorem c9_witness :
    (cookieContent plainCookieBackend
      (cookieClear (cookieInit plainCookieBackend none))).1 = none ∧
    ∃ t, (cookieContent plainCookieBackend
        (cookieSets (cookieClear (cookieInit plainCookieBackend none))
          [(['a'], JValue.null)])).1 = some t ∧
      load_content plainCookieBackend t =
        JValue.obj ([(['a'], JValue.null)].foldl
          (fun m kv => cookieSet.jalSet m kv.1 kv.2) []) :=
  ⟨(c9_clear plainCookieBackend (fun _ => rfl) (fun _ h => h)
      (cookieInit plainCookieBackend none) [(['a'], JValue.null)]).1,
   (c9_clear plainCookieBackend (fun _ => rfl) (fun _ h => h)
      (cookieInit plainCookieBackend none) [(['a'], JValue.null)]).2 (by simp)⟩

/-- C10: for every self-contained cookie session not in the cleared
state, reading the `content` property sets `accessed` to true (the token
recomputation iterates the session's own mapping interface), so the read
is not pure with respect to the `accessed` flag; the mapping itself is
unchanged. -/
theorem c10_content_read_sets_accessed (B : CookieBackend) (s : CState)
    (h : s.cleared = false) :
    (cookieContent B s).2.accessed = true ∧
    (cookieContent B s).2.content = s.content ∧
    (cookieContent B s).1 = some (save_content B s.content) := by
  refine ⟨?_, ?_, ?_⟩ <;> simp [cookieContent, h, cookieIter]

/-- Witness for C10: a fresh, untouched cookie session has
`accessed = false`, and one `content` read flips it to true. -/
theorem c10_witness :
    (cookieContent plainCookieBackend
      (cookieInit plainCookieBackend none)).2.accessed = true :=
  (c10_content_read_sets_accessed plainCookieBackend
    (cookieInit plainCookieBackend none) rfl).1
